import Mathlib

/-!
# The Domains client of msgraph (msgraph/domains.go)

A shallow embedding of the six operations of DomainsClient and the properties
of their request descriptors, error wrapping, status propagation, response
body handling and JSON decoding.

Conventions of the embedding.

* A Go error value is its message text (what the verb %v of fmt.Errorf
  prints); a nil error is none. A nil pointer is none.
* The context argument is handed through to the transport unchanged and is
  not modelled.
* BaseClient is an external collaborator: each of its verbs is an arbitrary
  function from the request descriptor to what the verb returns.
* A Go string that the caller hands to an operation (an identifier) is a
  sequence of bytes, valid UTF-8 or not (GoString); a string literal of the
  source is the UTF-8 encoding of its text. Error messages, JSON text and
  member names are Unicode strings: the operations only concatenate them or
  hand them on.
* Every operation also yields the trace of what it did to the transport and
  to the response body, in program order; a deferred Close is the last event
  of every path that leaves the function after the defer statement.
* The standard library (encoding/json, io, fmt, net/http) is not part of the
  repository. The text layer of encoding/json (syntax check, tokens, output
  text) is left open as a parameter; binding JSON values to Go values is
  written out below, following the library. The text layer the library has
  is written out too (namespace sample); what depends on how a string is
  written and read, as the bytes of an identifier that is not valid UTF-8, is
  stated for it.
-/

namespace msgraph

/-! ## Go strings -/

/-- A Go string: a sequence of bytes. Nothing makes it valid UTF-8. -/
structure GoString where
  bytes : List UInt8
deriving DecidableEq, Repr

/-- The UTF-8 encoding of one rune (utf8.EncodeRune on a valid rune): one to
four bytes. -/
def utf8.encodeRune (c : Char) : List UInt8 :=
  if c.toNat < 0x80 then [UInt8.ofNat c.toNat]
  else if c.toNat < 0x800 then
    [UInt8.ofNat (0xC0 + c.toNat / 0x40), UInt8.ofNat (0x80 + c.toNat % 0x40)]
  else if c.toNat < 0x10000 then
    [UInt8.ofNat (0xE0 + c.toNat / 0x1000), UInt8.ofNat (0x80 + c.toNat / 0x40 % 0x40),
      UInt8.ofNat (0x80 + c.toNat % 0x40)]
  else
    [UInt8.ofNat (0xF0 + c.toNat / 0x40000), UInt8.ofNat (0x80 + c.toNat / 0x1000 % 0x40),
      UInt8.ofNat (0x80 + c.toNat / 0x40 % 0x40), UInt8.ofNat (0x80 + c.toNat % 0x40)]

/-- The UTF-8 encoding of a text. -/
def utf8.encode : List Char → List UInt8
  | [] => []
  | c :: cs => utf8.encodeRune c ++ utf8.encode cs

/-- The Go string that holds a text: its UTF-8 encoding. The Go strings of
this form are the valid UTF-8 ones. -/
def GoString.ofString (s : String) : GoString :=
  { bytes := utf8.encode s.data }

instance : Coe String GoString := ⟨GoString.ofString⟩

/-- Concatenation of Go strings (the operator + and the verb %s of
fmt.Sprintf): the bytes of the one followed by the bytes of the other. -/
def GoString.append (a b : GoString) : GoString :=
  { bytes := a.bytes ++ b.bytes }

instance : Append GoString := ⟨GoString.append⟩

/-- The call utf8.DecodeRune on the bytes that remain: the rune that starts
there and the number of bytes it takes, or none where the library gives
RuneError with width 1 (no valid encoding starts there). A first byte below
0x80 is itself; 0xC2..0xDF starts two bytes, 0xE0..0xEF three, 0xF0..0xF4
four; the second byte lies in 0x80..0xBF, narrowed after 0xE0, 0xED, 0xF0 and
0xF4 so that overlong forms, surrogates and values past U+10FFFF are
refused; the later bytes lie in 0x80..0xBF. -/
def utf8.DecodeRune : List UInt8 → Option (Char × Nat)
  | [] => none
  | b0 :: rest =>
    if b0.toNat < 0x80 then some (Char.ofNat b0.toNat, 1)
    else if b0.toNat < 0xC2 then none
    else if b0.toNat < 0xE0 then
      match rest with
      | b1 :: _ =>
        if 0x80 ≤ b1.toNat ∧ b1.toNat ≤ 0xBF then
          some (Char.ofNat (b0.toNat % 0x20 * 0x40 + b1.toNat % 0x40), 2)
        else none
      | _ => none
    else if b0.toNat < 0xF0 then
      match rest with
      | b1 :: b2 :: _ =>
        if (if b0.toNat = 0xE0 then 0xA0 else 0x80) ≤ b1.toNat ∧
            b1.toNat ≤ (if b0.toNat = 0xED then 0x9F else 0xBF) ∧
            0x80 ≤ b2.toNat ∧ b2.toNat ≤ 0xBF then
          some (Char.ofNat (b0.toNat % 0x10 * 0x1000 + b1.toNat % 0x40 * 0x40
            + b2.toNat % 0x40), 3)
        else none
      | _ => none
    else if b0.toNat < 0xF5 then
      match rest with
      | b1 :: b2 :: b3 :: _ =>
        if (if b0.toNat = 0xF0 then 0x90 else 0x80) ≤ b1.toNat ∧
            b1.toNat ≤ (if b0.toNat = 0xF4 then 0x8F else 0xBF) ∧
            0x80 ≤ b2.toNat ∧ b2.toNat ≤ 0xBF ∧ 0x80 ≤ b3.toNat ∧ b3.toNat ≤ 0xBF then
          some (Char.ofNat (b0.toNat % 0x08 * 0x40000 + b1.toNat % 0x40 * 0x1000
            + b2.toNat % 0x40 * 0x40 + b3.toNat % 0x40), 4)
        else none
      | _ => none
    else none

/-- The runes of a Go string, as a loop over DecodeRune reads them: each
step gives the rune that starts there, or none for one byte that starts no
valid encoding. The fuel bounds the number of steps; the length of the
string is enough. -/
def utf8.runes : Nat → List UInt8 → List (Option Char)
  | 0, _ => []
  | _ + 1, [] => []
  | fuel + 1, b :: rest =>
    match utf8.DecodeRune (b :: rest) with
    | some (c, size) => some c :: utf8.runes fuel ((b :: rest).drop size)
    | none => none :: utf8.runes fuel rest

/-- The call utf8.ValidString: whether a Go string is valid UTF-8, that is,
whether the loop over its runes meets no byte that starts no valid
encoding. -/
def utf8.ValidString (s : GoString) : Bool :=
  (utf8.runes s.bytes.length s.bytes).all Option.isSome

/-! ## JSON values -/

/-- JSON values as encoding/json sees them after the syntax check; a number
keeps its literal text, an object keeps its members in document order. A
string value is a Go string: Marshal takes any, the reader only gives valid
UTF-8 ones. -/
inductive Json where
  | null
  | bool (b : Bool)
  | num (literal : String)
  | str (s : GoString)
  | arr (items : List Json)
  | obj (members : List (String × Json))

/-- The word encoding/json uses for the kind of a JSON value in the text of a
type error. -/
def Json.kindName : Json → String
  | Json.null => "null"
  | Json.bool _ => "bool"
  | Json.num _ => "number"
  | Json.str _ => "string"
  | Json.arr _ => "array"
  | Json.obj _ => "object"

/-! ## Types declared outside domains.go -/

/-- Status code constant http.StatusOK. -/
def http.StatusOK : Int := 200

/-- Status code constant http.StatusCreated. -/
def http.StatusCreated : Int := 201

/-- Status code constant http.StatusNoContent. -/
def http.StatusNoContent : Int := 204

/-- Modelled from the spec: the metadata level of the query options. The
declaration of odata.Metadata is missing from the source; domains.go names
only the level MetadataFull, and a Go zero value leaves the level unset. -/
inductive odata.Metadata where
  | unset
  | MetadataFull
  | level (name : String)
deriving DecidableEq, Repr

/-- Modelled from the spec: odata.Query, "a configuration object controlling
server-side filtering/selection/consistency metadata". Its declaration is
missing from the source; domains.go names only the field Metadata, every other
option is kept as a name/value pair and the Go zero value has none. -/
structure odata.Query where
  Metadata : odata.Metadata
  options : List (String × String)
deriving DecidableEq, Repr

/-- Modelled from the spec: the retry predicates a request descriptor can
carry ("a reusable policy value signaling: treat HTTP 404 as retryable").
The function is declared outside domains.go, which only refers to it by
name. -/
inductive ConsistencyFailureFunc where
  | RetryOn404ConsistencyFailureFunc
deriving DecidableEq, Repr

/-- Modelled from the spec: the Uri of a request descriptor ("path, whether
tenant id is injected"). Its declaration is missing from the source; the two
fields are those the literals of domains.go set. -/
structure Uri where
  Entity : GoString
  HasTenantId : Bool
deriving DecidableEq, Repr

/-- Modelled from the spec: the descriptor of a GET request, "a structured
request descriptor (path, whether tenant id is injected, query options,
accepted status codes, optional retry predicate)". Its declaration is missing
from the source; the fields are those the literals of domains.go set, and a
field a literal leaves out has its Go zero value. -/
structure GetHttpRequestInput where
  ConsistencyFailureFunc : Option ConsistencyFailureFunc
  OData : odata.Query
  ValidStatusCodes : List Int
  Uri : Uri
deriving DecidableEq, Repr

/-- Modelled from the spec: the descriptor of a POST request, the same fields
and the request body (nil when a literal leaves it out). Its declaration is
missing from the source. -/
structure PostHttpRequestInput where
  Body : Option String
  ConsistencyFailureFunc : Option ConsistencyFailureFunc
  OData : odata.Query
  ValidStatusCodes : List Int
  Uri : Uri
deriving DecidableEq, Repr

/-- Modelled from the spec: the descriptor of a DELETE request. Its declaration
is missing from the source. -/
structure DeleteHttpRequestInput where
  ConsistencyFailureFunc : Option ConsistencyFailureFunc
  OData : odata.Query
  ValidStatusCodes : List Int
  Uri : Uri
deriving DecidableEq, Repr

/-- The Go zero value of odata.Query. -/
def odata.Query.zero : odata.Query :=
  { Metadata := odata.Metadata.unset, options := [] }

/-- A response body (io.ReadCloser): what reading it to the end gives, the
bytes read or the text of the read error. -/
structure ReadCloser where
  content : Except String String

/-- The part of http.Response the operations touch. The Body of a response
that a client call returns is never nil. -/
structure http.Response where
  Body : ReadCloser

/-- The call io.ReadAll on a response body. -/
def io.ReadAll (r : ReadCloser) : Except String String :=
  r.content

/-- Modelled from the spec: what a BaseClient verb returns, "(response,
status code, request-echo, error)"; the third value is discarded by every
caller and left out. A failed call may or may not carry a response. -/
structure HttpResult where
  resp : Option http.Response
  status : Int
  err : Option String

/-- Modelled from the spec: the collaborator BaseClient, which "exposes
Get/Post/Delete ... taking a structured request descriptor". Its declaration
is missing from the source; each verb is an arbitrary function of the
descriptor, so a property proved for every Client holds whatever the
transport does (retries included). -/
structure Client where
  Get : GetHttpRequestInput → HttpResult
  Post : PostHttpRequestInput → HttpResult
  Delete : DeleteHttpRequestInput → HttpResult

/-- DomainsClient performs operations on Domains. -/
structure DomainsClient where
  BaseClient : Client

/-- Modelled from the spec: Domain, "identifier (ID, a domain name string) plus
provider-defined metadata fields ... opaque to this component". The
declaration is missing from the source; ID is a string pointer (domains.go
fills it with utils.StringPtr) and the metadata fields are one component of
an arbitrary type M. -/
structure Domain (M : Type) where
  ID : Option GoString
  metadata : M

/-- A Go slice while the decoder fills it: the elements below its length, and
the elements of the backing array past the length that an earlier decode
wrote (SetLen makes them visible again). A nil slice and an empty one are
both two empty lists. -/
structure Slice (α : Type) where
  live : List α
  spare : List α

/-- The anonymous struct that List decodes into:
struct with the one field Domains, a slice of Domain, tagged json:"value". -/
structure ListData (M : Type) where
  Domains : Slice (Domain M)

/-- Modelled from the spec: what domains.go uses without declaring it, taken
as parameters. Missing from the source are the declaration of Domain (its
"provider-defined metadata fields", of an arbitrary type M here) and of
DomainVerificationDnsRecord (an arbitrary type R here); the text layer of
encoding/json belongs to the standard library. parse gives the error text
for a body that is not JSON; metadataDecode k v m stores the member k: v (a
member no field is declared for leaves m as it is, a member of the wrong type
is an error). -/
structure Encoding (M R : Type) where
  /-- The syntax check and tokenisation of encoding/json. -/
  parse : String → Except String Json
  /-- The output text of encoding/json for a JSON value. -/
  render : Json → String
  /-- The Go zero value of the metadata fields of Domain. -/
  metadataZero : M
  /-- Unmarshal of one object member into the metadata fields of Domain. -/
  metadataDecode : String → Json → M → Except String M
  /-- Marshal of the metadata fields of Domain: the members written, or the
  error of a field that cannot be encoded. -/
  metadataEncode : M → Except String (List (String × Json))
  /-- Modelled from the spec: metadata fields that are not set are left out
  of the encoding and cannot make it fail ("POST /domains with body {id}",
  "the client only constructs a minimal instance (ID set)"). -/
  metadataEncode_zero : metadataEncode metadataZero = Except.ok []
  /-- Unmarshal of a JSON value into a fresh DomainVerificationDnsRecord. -/
  recordDecode : Json → Except String R

/-- Modelled from the spec: utils.StringPtr, a pointer to a copy of the
string (declared in internal/utils, missing from the source). -/
def utils.StringPtr (s : GoString) : Option GoString :=
  some s

/-! ## encoding/json: binding JSON values to the Go values of domains.go -/

section
variable {M R : Type}

/-- The letter that stands for a character when encoding/json compares a
member name with a field name written in ASCII: an ASCII capital is its small
letter, and the two characters beyond ASCII whose case folding is an ASCII
letter, the Kelvin sign U+212A and the long s U+017F, are k and s. -/
def json.foldRune (c : Char) : Char :=
  if c.toNat = 0x212A then 'k'
  else if c.toNat = 0x017F then 's'
  else c.toLower

/-- Whether the member name key selects the struct field with the ASCII JSON
name name: an exact match or a match ignoring case. -/
def json.fieldMatches (name key : String) : Bool :=
  key.data.map json.foldRune == name.data.map json.foldRune

/-- Stores one member of a JSON object into a Domain: a member that selects
the field id sets the string pointer ID (null sets it to nil, a string to
that string, anything else is a type error), every other member goes to the
metadata fields. -/
def json.decodeDomainMember (enc : Encoding M R) (d : Domain M) (kv : String × Json) :
    Except String (Domain M) :=
  if json.fieldMatches "id" kv.1 then
    match kv.2 with
    | Json.null => Except.ok { d with ID := none }
    | Json.str s => Except.ok { d with ID := some s }
    | v =>
      Except.error
        ("json: cannot unmarshal " ++ v.kindName
          ++ " into Go struct field Domain.id of type string")
  else
    match enc.metadataDecode kv.1 kv.2 d.metadata with
    | Except.ok m => Except.ok { d with metadata := m }
    | Except.error e => Except.error e

/-- Stores the members of a JSON object into a Domain, in document order: a
later member overwrites what an earlier one stored. -/
def json.decodeDomainMembers (enc : Encoding M R) :
    List (String × Json) → Domain M → Except String (Domain M)
  | [], d => Except.ok d
  | kv :: rest, d =>
    match json.decodeDomainMember enc d kv with
    | Except.ok d1 => json.decodeDomainMembers enc rest d1
    | Except.error e => Except.error e

/-- Binds a JSON value to an existing Domain: null leaves it as it is, an
object stores its members, every other value is a type error. Fields that
the object does not mention keep their value. -/
def json.decodeDomain (enc : Encoding M R) (v : Json) (d : Domain M) : Except String (Domain M) :=
  match v with
  | Json.null => Except.ok d
  | Json.obj members => json.decodeDomainMembers enc members d
  | v =>
    Except.error
      ("json: cannot unmarshal " ++ v.kindName ++ " into Go value of type msgraph.Domain")

/-- The value of the last member of an object that selects the field id, if
there is one. -/
def json.idMember : List (String × Json) → Option Json
  | [] => none
  | kv :: rest =>
    match json.idMember rest with
    | some v => some v
    | none => if json.fieldMatches "id" kv.1 then some kv.2 else none

/-- The identifier a JSON value carries: for an object, the string of its
last member that selects the field id; none when there is no such member,
when it is null, and for a value that is not an object. -/
def Json.identifier : Json → Option GoString
  | Json.obj members =>
    match json.idMember members with
    | some (Json.str s) => some s
    | _ => none
  | _ => none

/-- Binds the items of a JSON array to the elements of a slice of Domain, from
index 0 on: item i is decoded into the element the backing array holds at i,
or into a zero Domain past what was ever written. -/
def json.decodeDomainItems (enc : Encoding M R) :
    List Json → List (Domain M) → Except String (List (Domain M))
  | [], _ => Except.ok []
  | v :: vs, backing =>
    match json.decodeDomain enc v (backing.headD { ID := none, metadata := enc.metadataZero }) with
    | Except.error e => Except.error e
    | Except.ok d =>
      match json.decodeDomainItems enc vs backing.tail with
      | Except.error e => Except.error e
      | Except.ok ds => Except.ok (d :: ds)

/-- Binds a JSON value to a slice of Domain: null gives the nil slice, an
empty array a fresh empty slice, an array of n items a slice of length n over
the same backing array, every other value is a type error. -/
def json.decodeDomainSlice (enc : Encoding M R) (v : Json) (s : Slice (Domain M)) :
    Except String (Slice (Domain M)) :=
  match v with
  | Json.null => Except.ok { live := [], spare := [] }
  | Json.arr [] => Except.ok { live := [], spare := [] }
  | Json.arr items =>
    match json.decodeDomainItems enc items (s.live ++ s.spare) with
    | Except.error e => Except.error e
    | Except.ok ds => Except.ok { live := ds, spare := (s.live ++ s.spare).drop ds.length }
  | v =>
    Except.error
      ("json: cannot unmarshal " ++ v.kindName
        ++ " into Go struct field .value of type []msgraph.Domain")

/-- Stores one member of a JSON object into the struct List decodes into: a
member that selects the field value is bound to Domains, any other member is
skipped. -/
def json.decodeListDataMember (enc : Encoding M R) (data : ListData M) (kv : String × Json) :
    Except String (ListData M) :=
  if json.fieldMatches "value" kv.1 then
    match json.decodeDomainSlice enc kv.2 data.Domains with
    | Except.ok s => Except.ok { Domains := s }
    | Except.error e => Except.error e
  else
    Except.ok data

/-- Stores the members of a JSON object into the struct List decodes into, in
document order. -/
def json.decodeListDataMembers (enc : Encoding M R) :
    List (String × Json) → ListData M → Except String (ListData M)
  | [], data => Except.ok data
  | kv :: rest, data =>
    match json.decodeListDataMember enc data kv with
    | Except.ok data1 => json.decodeListDataMembers enc rest data1
    | Except.error e => Except.error e

/-- Binds a JSON value to the struct List decodes into. -/
def json.decodeListData (enc : Encoding M R) (v : Json) (data : ListData M) :
    Except String (ListData M) :=
  match v with
  | Json.null => Except.ok data
  | Json.obj members => json.decodeListDataMembers enc members data
  | v =>
    Except.error
      ("json: cannot unmarshal " ++ v.kindName ++ " into Go value of type "
        ++ "struct \x7b Domains []msgraph.Domain \"json:\\\"value\\\"\" \x7d")

/-- The call json.Unmarshal(data, &v): the syntax check of the whole text
comes first and leaves v untouched when it fails, then the value is bound to
v by the decoder of the type of v. -/
def json.Unmarshal {τ : Type} (enc : Encoding M R) (decode : Json → τ → Except String τ)
    (data : String) (v : τ) : Except String τ :=
  match enc.parse data with
  | Except.error e => Except.error e
  | Except.ok j => decode j v

/-- The call json.Unmarshal(data, &record) on a fresh
DomainVerificationDnsRecord. -/
def json.UnmarshalRecord (enc : Encoding M R) (data : String) : Except String R :=
  match enc.parse data with
  | Except.error e => Except.error e
  | Except.ok j => enc.recordDecode j

/-- The members Marshal writes for a Domain: id when the pointer is set, then
the metadata fields that are set. -/
def json.domainMembers (enc : Encoding M R) (d : Domain M) : Except String (List (String × Json)) :=
  match enc.metadataEncode d.metadata with
  | Except.error e => Except.error e
  | Except.ok ms =>
    match d.ID with
    | some s => Except.ok (("id", Json.str s) :: ms)
    | none => Except.ok ms

/-- The call json.Marshal(domain) on a Domain. The identifier goes to the
writer as the Go string it is, bytes that are not valid UTF-8 included. -/
def json.Marshal (enc : Encoding M R) (d : Domain M) : Except String String :=
  match json.domainMembers enc d with
  | Except.error e => Except.error e
  | Except.ok ms => Except.ok (enc.render (Json.obj ms))

end

/-! ## The operations of domains.go -/

/-- What an operation does to the transport and to the response body, one
event per call: the BaseClient verb with its request descriptor, io.ReadAll
on the body, json.Unmarshal of the bytes read, Close on the body. -/
inductive Event where
  | Get (input : GetHttpRequestInput)
  | Post (input : PostHttpRequestInput)
  | Delete (input : DeleteHttpRequestInput)
  | ReadAll
  | Unmarshal
  | Close
deriving DecidableEq, Repr

/-- Whether an event is a call of a BaseClient verb. -/
def Event.isRequest : Event → Bool
  | Event.Get _ => true
  | Event.Post _ => true
  | Event.Delete _ => true
  | _ => false

/-- The three values an operation with a result returns: the result pointer,
the status code and the error. -/
structure Returned (α : Type) where
  result : Option α
  status : Int
  err : Option String

/-- The two values Delete returns: the status code and the error. -/
structure DeleteReturned where
  status : Int
  err : Option String
deriving DecidableEq, Repr

/-- How a call ends: it returns its values, or it stops at the dereference of
a nil response (the transport gave neither an error nor a response). -/
inductive Outcome (ρ : Type) where
  | returned (values : ρ)
  | nilDereference

/-- A finished call: how it ended and the trace of its events. -/
structure Run (ρ : Type) where
  outcome : Outcome ρ
  trace : List Event

section
variable {M R : Type}

/-- The request descriptor List builds (lines 29-36). -/
def DomainsClient.ListInput (query : odata.Query) : GetHttpRequestInput :=
  { ConsistencyFailureFunc := none
    ValidStatusCodes := [http.StatusOK]
    OData := query
    Uri := { Entity := "/domains", HasTenantId := true } }

/-- List returns a list of Domains. -/
def DomainsClient.List (enc : Encoding M R) (c : DomainsClient) (query : odata.Query) :
    Run (Returned (List (Domain M))) :=
  let r := c.BaseClient.Get (DomainsClient.ListInput query)
  match r.err with
  | some err =>
    ⟨Outcome.returned ⟨none, r.status, some ("DomainsClient.BaseClient.Get(): " ++ err)⟩,
      [Event.Get (DomainsClient.ListInput query)]⟩
  | none =>
    match r.resp with
    | none => ⟨Outcome.nilDereference, [Event.Get (DomainsClient.ListInput query)]⟩
    | some resp =>
      match io.ReadAll resp.Body with
      | Except.error err =>
        ⟨Outcome.returned ⟨none, r.status, some ("io.ReadAll(): " ++ err)⟩,
          [Event.Get (DomainsClient.ListInput query), Event.ReadAll, Event.Close]⟩
      | Except.ok respBody =>
        match json.Unmarshal enc (json.decodeListData enc) respBody
            { Domains := { live := [], spare := [] } } with
        | Except.error err =>
          ⟨Outcome.returned ⟨none, r.status, some ("json.Unmarshal(): " ++ err)⟩,
            [Event.Get (DomainsClient.ListInput query), Event.ReadAll, Event.Unmarshal,
              Event.Close]⟩
        | Except.ok data =>
          ⟨Outcome.returned ⟨some data.Domains.live, r.status, none⟩,
            [Event.Get (DomainsClient.ListInput query), Event.ReadAll, Event.Unmarshal,
              Event.Close]⟩

/-- The request descriptor Get builds (lines 61-69). -/
def DomainsClient.GetInput (id : GoString) (query : odata.Query) : GetHttpRequestInput :=
  { ConsistencyFailureFunc := some ConsistencyFailureFunc.RetryOn404ConsistencyFailureFunc
    OData := query
    ValidStatusCodes := [http.StatusOK]
    Uri := { Entity := "/domains/" ++ id, HasTenantId := true } }

/-- Get retrieves a Domain. -/
def DomainsClient.Get (enc : Encoding M R) (c : DomainsClient) (id : GoString)
    (query : odata.Query) : Run (Returned (Domain M)) :=
  let r := c.BaseClient.Get (DomainsClient.GetInput id query)
  match r.err with
  | some err =>
    ⟨Outcome.returned ⟨none, r.status, some ("DomainsClient.BaseClient.Get(): " ++ err)⟩,
      [Event.Get (DomainsClient.GetInput id query)]⟩
  | none =>
    match r.resp with
    | none => ⟨Outcome.nilDereference, [Event.Get (DomainsClient.GetInput id query)]⟩
    | some resp =>
      match io.ReadAll resp.Body with
      | Except.error err =>
        ⟨Outcome.returned ⟨none, r.status, some ("io.ReadAll(): " ++ err)⟩,
          [Event.Get (DomainsClient.GetInput id query), Event.ReadAll, Event.Close]⟩
      | Except.ok respBody =>
        match json.Unmarshal enc (json.decodeDomain enc) respBody
            { ID := none, metadata := enc.metadataZero } with
        | Except.error err =>
          ⟨Outcome.returned ⟨none, r.status, some ("json.Unmarshal(): " ++ err)⟩,
            [Event.Get (DomainsClient.GetInput id query), Event.ReadAll, Event.Unmarshal,
              Event.Close]⟩
        | Except.ok domain =>
          ⟨Outcome.returned ⟨some domain, r.status, none⟩,
            [Event.Get (DomainsClient.GetInput id query), Event.ReadAll, Event.Unmarshal,
              Event.Close]⟩

/-- The request descriptor Create builds around the encoded body
(lines 99-109). -/
def DomainsClient.CreateInput (body : String) : PostHttpRequestInput :=
  { Body := some body
    ConsistencyFailureFunc := none
    OData := { Metadata := odata.Metadata.MetadataFull, options := [] }
    ValidStatusCodes := [http.StatusCreated]
    Uri := { Entity := "/domains", HasTenantId := true } }

/-- Create create a new Domain. -/
def DomainsClient.Create (enc : Encoding M R) (c : DomainsClient) (id : GoString) :
    Run (Returned (Domain M)) :=
  let domain : Domain M := { ID := utils.StringPtr id, metadata := enc.metadataZero }
  match json.Marshal enc domain with
  | Except.error err =>
    ⟨Outcome.returned ⟨none, 0, some ("json.Marshal(): " ++ err)⟩, []⟩
  | Except.ok body =>
    let r := c.BaseClient.Post (DomainsClient.CreateInput body)
    match r.err with
    | some err =>
      ⟨Outcome.returned ⟨none, r.status, some ("DomainsClient.BaseClient.Post(): " ++ err)⟩,
        [Event.Post (DomainsClient.CreateInput body)]⟩
    | none =>
      match r.resp with
      | none => ⟨Outcome.nilDereference, [Event.Post (DomainsClient.CreateInput body)]⟩
      | some resp =>
        match io.ReadAll resp.Body with
        | Except.error err =>
          ⟨Outcome.returned ⟨none, r.status, some ("io.ReadAll(): " ++ err)⟩,
            [Event.Post (DomainsClient.CreateInput body), Event.ReadAll, Event.Close]⟩
        | Except.ok respBody =>
          match json.Unmarshal enc (json.decodeDomain enc) respBody domain with
          | Except.error err =>
            ⟨Outcome.returned ⟨none, r.status, some ("json.Unmarshal(): " ++ err)⟩,
              [Event.Post (DomainsClient.CreateInput body), Event.ReadAll, Event.Unmarshal,
                Event.Close]⟩
          | Except.ok domain1 =>
            ⟨Outcome.returned ⟨some domain1, r.status, none⟩,
              [Event.Post (DomainsClient.CreateInput body), Event.ReadAll, Event.Unmarshal,
                Event.Close]⟩

/-- The request descriptor Delete builds (lines 129-136). -/
def DomainsClient.DeleteInput (id : GoString) : DeleteHttpRequestInput :=
  { ConsistencyFailureFunc := some ConsistencyFailureFunc.RetryOn404ConsistencyFailureFunc
    OData := odata.Query.zero
    ValidStatusCodes := [http.StatusNoContent]
    Uri := { Entity := "/domains/" ++ id, HasTenantId := true } }

/-- Delete removes an Application. -/
def DomainsClient.Delete (c : DomainsClient) (id : GoString) : Run DeleteReturned :=
  let r := c.BaseClient.Delete (DomainsClient.DeleteInput id)
  match r.err with
  | some err =>
    ⟨Outcome.returned ⟨r.status, some ("ApplicationsClient.BaseClient.Delete(): " ++ err)⟩,
      [Event.Delete (DomainsClient.DeleteInput id)]⟩
  | none =>
    ⟨Outcome.returned ⟨r.status, none⟩, [Event.Delete (DomainsClient.DeleteInput id)]⟩

/-- The request descriptor GetVerificationDnsRecords builds (lines 147-155). -/
def DomainsClient.GetVerificationDnsRecordsInput (domainName : GoString)
    (query : odata.Query) :
    GetHttpRequestInput :=
  { ConsistencyFailureFunc := some ConsistencyFailureFunc.RetryOn404ConsistencyFailureFunc
    OData := query
    ValidStatusCodes := [http.StatusOK]
    Uri := { Entity := "/domains/" ++ domainName ++ "/verificationDnsRecords"
             HasTenantId := true } }

/-- GetVerificationDnsRecords retrieves the DomainVerificationDnsRecord of a
domain. -/
def DomainsClient.GetVerificationDnsRecords (enc : Encoding M R) (c : DomainsClient)
    (domainName : GoString) (query : odata.Query) : Run (Returned R) :=
  let r := c.BaseClient.Get (DomainsClient.GetVerificationDnsRecordsInput domainName query)
  match r.err with
  | some err =>
    ⟨Outcome.returned ⟨none, r.status, some ("DomainsClient.BaseClient.Get(): " ++ err)⟩,
      [Event.Get (DomainsClient.GetVerificationDnsRecordsInput domainName query)]⟩
  | none =>
    match r.resp with
    | none =>
      ⟨Outcome.nilDereference,
        [Event.Get (DomainsClient.GetVerificationDnsRecordsInput domainName query)]⟩
    | some resp =>
      match io.ReadAll resp.Body with
      | Except.error err =>
        ⟨Outcome.returned ⟨none, r.status, some ("io.ReadAll(): " ++ err)⟩,
          [Event.Get (DomainsClient.GetVerificationDnsRecordsInput domainName query),
            Event.ReadAll, Event.Close]⟩
      | Except.ok respBody =>
        match json.UnmarshalRecord enc respBody with
        | Except.error err =>
          ⟨Outcome.returned ⟨none, r.status, some ("json.Unmarshal(): " ++ err)⟩,
            [Event.Get (DomainsClient.GetVerificationDnsRecordsInput domainName query),
              Event.ReadAll, Event.Unmarshal, Event.Close]⟩
        | Except.ok domainVerificationDnsRecord =>
          ⟨Outcome.returned ⟨some domainVerificationDnsRecord, r.status, none⟩,
            [Event.Get (DomainsClient.GetVerificationDnsRecordsInput domainName query),
              Event.ReadAll, Event.Unmarshal, Event.Close]⟩

/-- The request descriptor VerifyDomain builds (lines 177-184). -/
def DomainsClient.VerifyDomainInput (id : GoString) : PostHttpRequestInput :=
  { Body := none
    ConsistencyFailureFunc := some ConsistencyFailureFunc.RetryOn404ConsistencyFailureFunc
    OData := odata.Query.zero
    ValidStatusCodes := [http.StatusOK]
    Uri := { Entity := "/domains/" ++ id ++ "/verify", HasTenantId := true } }

/-- VerifyDomain asks the service to verify a domain. -/
def DomainsClient.VerifyDomain (enc : Encoding M R) (c : DomainsClient) (id : GoString) :
    Run (Returned (Domain M)) :=
  let r := c.BaseClient.Post (DomainsClient.VerifyDomainInput id)
  match r.err with
  | some err =>
    ⟨Outcome.returned ⟨none, r.status, some ("DomainsClient.BaseClient.Post(): " ++ err)⟩,
      [Event.Post (DomainsClient.VerifyDomainInput id)]⟩
  | none =>
    match r.resp with
    | none => ⟨Outcome.nilDereference, [Event.Post (DomainsClient.VerifyDomainInput id)]⟩
    | some resp =>
      match io.ReadAll resp.Body with
      | Except.error err =>
        ⟨Outcome.returned ⟨none, r.status, some ("io.ReadAll(): " ++ err)⟩,
          [Event.Post (DomainsClient.VerifyDomainInput id), Event.ReadAll, Event.Close]⟩
      | Except.ok respBody =>
        match json.Unmarshal enc (json.decodeDomain enc) respBody
            { ID := none, metadata := enc.metadataZero } with
        | Except.error err =>
          ⟨Outcome.returned ⟨none, r.status, some ("json.Unmarshal(): " ++ err)⟩,
            [Event.Post (DomainsClient.VerifyDomainInput id), Event.ReadAll, Event.Unmarshal,
              Event.Close]⟩
        | Except.ok domain =>
          ⟨Outcome.returned ⟨some domain, r.status, none⟩,
            [Event.Post (DomainsClient.VerifyDomainInput id), Event.ReadAll, Event.Unmarshal,
              Event.Close]⟩

end

/-! ## A concrete encoding and concrete transports

One instance of what the source leaves open: the text layer of encoding/json
written out (a reader for the grammar of RFC 8259 with the library's limit on
nesting, and the writer of Marshal with its escapes), a metadata component
with two fields, and a record with one. -/

namespace sample

/-- The four white space characters of JSON. -/
def isSpace (c : Char) : Bool :=
  c == ' ' || c == '\t' || c == '\n' || c == '\r'

/-- Drops leading white space. -/
def skipSpace : List Char → List Char
  | [] => []
  | c :: cs => if isSpace c then skipSpace cs else c :: cs

/-- The value of a hexadecimal digit. -/
def hexValue (c : Char) : Option Nat :=
  if '0' ≤ c ∧ c ≤ '9' then some (c.toNat - '0'.toNat)
  else if 'a' ≤ c ∧ c ≤ 'f' then some (c.toNat - 'a'.toNat + 10)
  else if 'A' ≤ c ∧ c ≤ 'F' then some (c.toNat - 'A'.toNat + 10)
  else none

/-- Reads the four hexadecimal digits of a \u escape. -/
def hex4 : List Char → Option (Nat × List Char)
  | a :: b :: c :: d :: rest =>
    match hexValue a, hexValue b, hexValue c, hexValue d with
    | some x, some y, some z, some w => some (((x * 16 + y) * 16 + z) * 16 + w, rest)
    | _, _, _, _ => none
  | _ => none

/-- Reads the escape u after its four digits are known to start at r: the
character of the code unit, a surrogate pair written as two escapes as one
character, a surrogate on its own as U+FFFD. -/
def readUnicode (r : List Char) : Option (Char × List Char) :=
  match hex4 r with
  | none => none
  | some (n, r1) =>
    if 0xD800 ≤ n ∧ n < 0xDC00 then
      match r1 with
      | a :: b :: r2 =>
        if a = '\\' ∧ b = 'u' then
          match hex4 r2 with
          | some (m, r3) =>
            if 0xDC00 ≤ m ∧ m < 0xE000 then
              some (Char.ofNat (0x10000 + (n - 0xD800) * 0x400 + (m - 0xDC00)), r3)
            else some (Char.ofNat 0xFFFD, r1)
          | none => none
        else some (Char.ofNat 0xFFFD, r1)
      | _ => some (Char.ofNat 0xFFFD, r1)
    else if 0xDC00 ≤ n ∧ n < 0xE000 then some (Char.ofNat 0xFFFD, r1)
    else some (Char.ofNat n, r1)

/-- Reads one escape after its backslash: the character it stands for and
what follows it. -/
def readEscape : List Char → Option (Char × List Char)
  | [] => none
  | e :: r =>
    if e = '"' then some ('"', r)
    else if e = '\\' then some ('\\', r)
    else if e = '/' then some ('/', r)
    else if e = 'b' then some (Char.ofNat 8, r)
    else if e = 'f' then some (Char.ofNat 12, r)
    else if e = 'n' then some ('\n', r)
    else if e = 'r' then some ('\r', r)
    else if e = 't' then some ('\t', r)
    else if e = 'u' then readUnicode r
    else none

/-- Reads a string literal after its opening quote; acc holds the characters
read so far, last first. A control character is refused. -/
def parseString : Nat → List Char → List Char → Option (String × List Char)
  | 0, _, _ => none
  | _ + 1, [], _ => none
  | fuel + 1, c :: rest, acc =>
    if c = '"' then some (String.mk acc.reverse, rest)
    else if c = '\\' then
      match readEscape rest with
      | some (e, r) => parseString fuel r (e :: acc)
      | none => none
    else if c.toNat < 0x20 then none
    else parseString fuel rest (c :: acc)

/-- Splits off the leading decimal digits. -/
def digits : List Char → List Char × List Char
  | [] => ([], [])
  | c :: cs => if c.isDigit then ((digits cs).1.cons c, (digits cs).2) else ([], c :: cs)

/-- The integer part of a number: 0, or digits that do not start with 0. -/
def parseInt (cs : List Char) : Option (List Char × List Char) :=
  match cs with
  | '0' :: rest => some (['0'], rest)
  | c :: _ => if c.isDigit then some (digits cs) else none
  | [] => none

/-- The optional fraction of a number. -/
def parseFrac (cs : List Char) : Option (List Char × List Char) :=
  match cs with
  | '.' :: rest =>
    match digits rest with
    | ([], _) => none
    | (ds, r) => some ('.' :: ds, r)
  | _ => some ([], cs)

/-- The optional exponent of a number. -/
def parseExp (cs : List Char) : Option (List Char × List Char) :=
  match cs with
  | e :: rest =>
    if e == 'e' || e == 'E' then
      match rest with
      | s :: rest1 =>
        if s == '+' || s == '-' then
          match digits rest1 with
          | ([], _) => none
          | (ds, r) => some (e :: s :: ds, r)
        else
          match digits rest with
          | ([], _) => none
          | (ds, r) => some (e :: ds, r)
      | [] => none
    else some ([], cs)
  | [] => some ([], cs)

/-- Reads a number and keeps its literal text. -/
def parseNumber (cs : List Char) : Option (String × List Char) :=
  let (sign, cs1) := match cs with
    | '-' :: rest => (['-'], rest)
    | _ => ([], cs)
  match parseInt cs1 with
  | none => none
  | some (i, cs2) =>
    match parseFrac cs2 with
    | none => none
    | some (f, cs3) =>
      match parseExp cs3 with
      | none => none
      | some (e, cs4) => some (String.mk (sign ++ i ++ f ++ e), cs4)

/-- The deepest nesting of arrays and objects the reader accepts. -/
def maxNestingDepth : Nat := 10000

/-- Whether the characters cs start with the characters lit. -/
def leads : List Char → List Char → Bool
  | [], _ => true
  | _ :: _, [] => false
  | l :: lit, c :: cs => l == c && leads lit cs

mutual
/-- Reads one JSON value inside depth open arrays and objects; the fuel
bounds the number of steps. -/
def parseValue : Nat → Nat → List Char → Option (Json × List Char)
  | 0, _, _ => none
  | fuel + 1, depth, cs =>
    match skipSpace cs with
    | [] => none
    | c :: rest =>
      if c = '"' then
        match parseString (rest.length + 1) rest [] with
        | some (s, r) => some (Json.str (GoString.ofString s), r)
        | none => none
      else if c = '[' then
        if maxNestingDepth ≤ depth then none
        else
          match skipSpace rest with
          | [] => none
          | d :: r =>
            if d = ']' then some (Json.arr [], r)
            else
              match parseItems fuel (depth + 1) rest with
              | some (items, r1) => some (Json.arr items, r1)
              | none => none
      else if c = '{' then
        if maxNestingDepth ≤ depth then none
        else
          match skipSpace rest with
          | [] => none
          | d :: r =>
            if d = '}' then some (Json.obj [], r)
            else
              match parseMembers fuel (depth + 1) rest with
              | some (members, r1) => some (Json.obj members, r1)
              | none => none
      else if leads ['n', 'u', 'l', 'l'] (c :: rest) then some (Json.null, rest.drop 3)
      else if leads ['t', 'r', 'u', 'e'] (c :: rest) then some (Json.bool true, rest.drop 3)
      else if leads ['f', 'a', 'l', 's', 'e'] (c :: rest) then
        some (Json.bool false, rest.drop 4)
      else
        match parseNumber (c :: rest) with
        | some (n, r) => some (Json.num n, r)
        | none => none
/-- Reads the items of an array up to the closing bracket. -/
def parseItems : Nat → Nat → List Char → Option (List Json × List Char)
  | 0, _, _ => none
  | fuel + 1, depth, cs =>
    match parseValue fuel depth cs with
    | none => none
    | some (v, r) =>
      match skipSpace r with
      | [] => none
      | c :: r1 =>
        if c = ',' then
          match parseItems fuel depth r1 with
          | some (vs, r2) => some (v :: vs, r2)
          | none => none
        else if c = ']' then some ([v], r1)
        else none
/-- Reads the members of an object up to the closing brace. -/
def parseMembers : Nat → Nat → List Char → Option (List (String × Json) × List Char)
  | 0, _, _ => none
  | fuel + 1, depth, cs =>
    match skipSpace cs with
    | [] => none
    | q :: rest =>
      if q = '"' then
        match parseString (rest.length + 1) rest [] with
        | none => none
        | some (k, r) =>
          match skipSpace r with
          | [] => none
          | colon :: r1 =>
            if colon = ':' then
              match parseValue fuel depth r1 with
              | none => none
              | some (v, r2) =>
                match skipSpace r2 with
                | [] => none
                | c :: r3 =>
                  if c = ',' then
                    match parseMembers fuel depth r3 with
                    | some (ms, r4) => some ((k, v) :: ms, r4)
                    | none => none
                  else if c = '}' then some ([(k, v)], r3)
                  else none
            else none
      else none
end

/-- Reads a whole text as one JSON value, white space around it allowed. -/
def parse (data : String) : Except String Json :=
  match parseValue (2 * data.length + 2) 0 data.data with
  | some (v, rest) =>
    match skipSpace rest with
    | [] => Except.ok v
    | _ => Except.error "invalid character after top-level value"
  | none => Except.error "invalid JSON text"

/-- The hexadecimal digit of a value below 16, in lower case (the table hex
of the library). -/
def hexDigit (d : Nat) : Char :=
  if d < 10 then Char.ofNat ('0'.toNat + d) else Char.ofNat ('a'.toNat + (d - 10))

/-- What Marshal writes for one rune of a string: a backslash before the
quote and the backslash, the short escapes of line feed, carriage return and
tab, the escape u00XX for the other control characters and for the
characters <, > and & (Marshal escapes HTML), the escape u202X for U+2028 and
U+2029, and the rune itself otherwise. Before Go 1.22 backspace and form feed
are written u0008 and u000c, as here; later releases write the short escapes
b and f, which read back to the same characters. -/
def writeRune (c : Char) : List Char :=
  if c == '"' then ['\\', '"']
  else if c == '\\' then ['\\', '\\']
  else if c == '\n' then ['\\', 'n']
  else if c == '\r' then ['\\', 'r']
  else if c == '\t' then ['\\', 't']
  else if c.toNat < 0x20 || c == '<' || c == '>' || c == '&' then
    ['\\', 'u', '0', '0', hexDigit (c.toNat / 16), hexDigit (c.toNat % 16)]
  else if c.toNat == 0x2028 || c.toNat == 0x2029 then
    ['\\', 'u', '2', '0', '2', hexDigit (c.toNat % 16)]
  else [c]

/-- What Marshal writes for the runes of a string: each rune as writeRune
says, and the escape ufffd for a byte that starts no valid encoding. -/
def writeRunes : List (Option Char) → List Char
  | [] => []
  | some c :: rest => writeRune c ++ writeRunes rest
  | none :: rest => ['\\', 'u', 'f', 'f', 'f', 'd'] ++ writeRunes rest

/-- A string literal with its quotes, as Marshal writes a Go string. -/
def quote (s : GoString) : String :=
  String.mk ('"' :: writeRunes (utf8.runes s.bytes.length s.bytes) ++ ['"'])

mutual
/-- The output text of a JSON value, without white space. -/
def render : Json → String
  | Json.null => "null"
  | Json.bool true => "true"
  | Json.bool false => "false"
  | Json.num n => n
  | Json.str s => quote s
  | Json.arr items => "[" ++ renderItems items ++ "]"
  | Json.obj members => "\x7b" ++ renderMembers members ++ "\x7d"
/-- The items of an array, separated by commas. -/
def renderItems : List Json → String
  | [] => ""
  | [v] => render v
  | v :: vs => render v ++ "," ++ renderItems vs
/-- The members of an object, separated by commas. -/
def renderMembers : List (String × Json) → String
  | [] => ""
  | [(k, v)] => quote (GoString.ofString k) ++ ":" ++ render v
  | (k, v) :: ms => quote (GoString.ofString k) ++ ":" ++ render v ++ "," ++ renderMembers ms
end

/-- Modelled from the spec: two of the "provider-defined metadata fields
(verification state, authentication type, ...)" of a Domain. -/
structure Metadata where
  isVerified : Option Bool
  authenticationType : Option GoString
deriving DecidableEq, Repr

/-- Stores one member into the two metadata fields; other members are
skipped. -/
def metadataDecode (k : String) (v : Json) (m : Metadata) : Except String Metadata :=
  if json.fieldMatches "isVerified" k then
    match v with
    | Json.null => Except.ok { m with isVerified := none }
    | Json.bool b => Except.ok { m with isVerified := some b }
    | _ => Except.error "json: cannot unmarshal into Go struct field Domain.isVerified of type bool"
  else if json.fieldMatches "authenticationType" k then
    match v with
    | Json.null => Except.ok { m with authenticationType := none }
    | Json.str s => Except.ok { m with authenticationType := some s }
    | _ =>
      Except.error
        "json: cannot unmarshal into Go struct field Domain.authenticationType of type string"
  else
    Except.ok m

/-- The members written for the metadata fields that are set. -/
def metadataEncode (m : Metadata) : Except String (List (String × Json)) :=
  Except.ok
    ((match m.isVerified with
      | some b => [("isVerified", Json.bool b)]
      | none => []) ++
     (match m.authenticationType with
      | some s => [("authenticationType", Json.str s)]
      | none => []))

/-- Modelled from the spec: one field of DomainVerificationDnsRecord, "a DNS
record (type, label, value)". -/
structure Record where
  label : Option GoString
deriving DecidableEq, Repr

/-- Stores the members of an object into a Record, in document order. -/
def recordMembers : List (String × Json) → Record → Except String Record
  | [], r => Except.ok r
  | (k, v) :: rest, r =>
    if json.fieldMatches "label" k then
      match v with
      | Json.null => recordMembers rest { label := none }
      | Json.str s => recordMembers rest { label := some s }
      | _ =>
        Except.error
          "json: cannot unmarshal into Go struct field DomainVerificationDnsRecord.label"
    else recordMembers rest r

/-- Binds a JSON value to a fresh Record. -/
def recordDecode (v : Json) : Except String Record :=
  match v with
  | Json.null => Except.ok { label := none }
  | Json.obj members => recordMembers members { label := none }
  | _ => Except.error "json: cannot unmarshal into Go value of type DomainVerificationDnsRecord"

/-- The concrete encoding. -/
def encoding : Encoding Metadata Record where
  parse := parse
  render := render
  metadataZero := { isVerified := none, authenticationType := none }
  metadataDecode := metadataDecode
  metadataEncode := metadataEncode
  metadataEncode_zero := rfl
  recordDecode := recordDecode

/-- A transport whose three verbs all return r, whatever the request. -/
def constant (r : HttpResult) : DomainsClient :=
  { BaseClient := { Get := fun _ => r, Post := fun _ => r, Delete := fun _ => r } }

/-- A transport that refuses every request with status 403. -/
def forbidden : DomainsClient :=
  constant { resp := none, status := 403, err := some "unexpected status 403" }

/-- A transport that answers every request with the given status and body
text. -/
def answering (status : Int) (body : String) : DomainsClient :=
  constant { resp := some { Body := { content := Except.ok body } }, status := status, err := none }

/-- A transport that answers every request with status 200 and a body whose
reading fails. -/
def unreadable : DomainsClient :=
  constant { resp := some { Body := { content := Except.error "unexpected EOF" } }, status := 200,
             err := none }

/-- The list response of the spec's example:
{"value":[{"id":"a.com"},{"id":"b.com"}]}. -/
def listBody : String :=
  "\x7b\"value\":[\x7b\"id\":\"a.com\"\x7d,\x7b\"id\":\"b.com\"\x7d]\x7d"

/-- An identifier that is not valid UTF-8: the letter a, the byte 0xFF, the
letter b. -/
def invalidId : GoString :=
  { bytes := [0x61, 0xFF, 0x62] }

/-- The identifier invalidId with U+FFFD (the bytes EF BF BD) in place of the
byte 0xFF. -/
def replacedId : GoString :=
  { bytes := [0x61, 0xEF, 0xBF, 0xBD, 0x62] }

end sample

/-! ## Properties -/

section
variable {M R : Type}

/-- The body Create encodes: Marshal of the minimal Domain succeeds and gives
the text of the object with the one member id. -/
theorem json.Marshal_minimal (enc : Encoding M R) (id : GoString) :
    json.Marshal enc { ID := utils.StringPtr id, metadata := enc.metadataZero } =
      Except.ok (enc.render (Json.obj [("id", Json.str id)])) := by
  simp [json.Marshal, json.domainMembers, enc.metadataEncode_zero, utils.StringPtr]

/-- C1: for each of the six operations, when the BaseClient verb it calls
returns a non-nil error e together with status s, the operation returns a
non-nil error, exactly s as its status code and no result, and its trace is
the request alone: the body is neither read nor decoded. -/
theorem transport_error_keeps_status (enc : Encoding M R) (c : DomainsClient) (id : GoString)
    (query : odata.Query) (resp : Option http.Response) (s : Int) (e : String) :
    (c.BaseClient.Get (DomainsClient.ListInput query) = ⟨resp, s, some e⟩ →
      (∃ msg, (DomainsClient.List enc c query).outcome
          = Outcome.returned ⟨none, s, some msg⟩) ∧
      (DomainsClient.List enc c query).trace = [Event.Get (DomainsClient.ListInput query)]) ∧
    (c.BaseClient.Get (DomainsClient.GetInput id query) = ⟨resp, s, some e⟩ →
      (∃ msg, (DomainsClient.Get enc c id query).outcome
          = Outcome.returned ⟨none, s, some msg⟩) ∧
      (DomainsClient.Get enc c id query).trace
        = [Event.Get (DomainsClient.GetInput id query)]) ∧
    (c.BaseClient.Post (DomainsClient.CreateInput (enc.render (Json.obj [("id", Json.str id)])))
        = ⟨resp, s, some e⟩ →
      (∃ msg, (DomainsClient.Create enc c id).outcome
          = Outcome.returned ⟨none, s, some msg⟩) ∧
      (DomainsClient.Create enc c id).trace
        = [Event.Post (DomainsClient.CreateInput (enc.render (Json.obj [("id", Json.str id)])))]) ∧
    (c.BaseClient.Delete (DomainsClient.DeleteInput id) = ⟨resp, s, some e⟩ →
      (∃ msg, (DomainsClient.Delete c id).outcome = Outcome.returned ⟨s, some msg⟩) ∧
      (DomainsClient.Delete c id).trace = [Event.Delete (DomainsClient.DeleteInput id)]) ∧
    (c.BaseClient.Get (DomainsClient.GetVerificationDnsRecordsInput id query)
        = ⟨resp, s, some e⟩ →
      (∃ msg, (DomainsClient.GetVerificationDnsRecords enc c id query).outcome
          = Outcome.returned ⟨none, s, some msg⟩) ∧
      (DomainsClient.GetVerificationDnsRecords enc c id query).trace
        = [Event.Get (DomainsClient.GetVerificationDnsRecordsInput id query)]) ∧
    (c.BaseClient.Post (DomainsClient.VerifyDomainInput id) = ⟨resp, s, some e⟩ →
      (∃ msg, (DomainsClient.VerifyDomain enc c id).outcome
          = Outcome.returned ⟨none, s, some msg⟩) ∧
      (DomainsClient.VerifyDomain enc c id).trace
        = [Event.Post (DomainsClient.VerifyDomainInput id)]) := by
  refine ⟨?_, ?_, ?_, ?_, ?_, ?_⟩
  · intro h
    simp [DomainsClient.List, h]
  · intro h
    simp [DomainsClient.Get, h]
  · intro h
    simp [DomainsClient.Create, json.Marshal_minimal, h]
  · intro h
    simp [DomainsClient.Delete, h]
  · intro h
    simp [DomainsClient.GetVerificationDnsRecords, h]
  · intro h
    simp [DomainsClient.VerifyDomain, h]

/-- The traces of List: the request alone, or the request, the read and the
close, with the decoding in between when the read succeeded. -/
theorem DomainsClient.List_trace (enc : Encoding M R) (c : DomainsClient) (query : odata.Query) :
    (DomainsClient.List enc c query).trace = [Event.Get (DomainsClient.ListInput query)] ∨
    (DomainsClient.List enc c query).trace
      = [Event.Get (DomainsClient.ListInput query), Event.ReadAll, Event.Close] ∨
    (DomainsClient.List enc c query).trace
      = [Event.Get (DomainsClient.ListInput query),
          Event.ReadAll, Event.Unmarshal, Event.Close] := by
  simp only [DomainsClient.List]
  repeat' split
  all_goals simp

/-- The traces of Get: the request alone, or the request, the read and the
close, with the decoding in between when the read succeeded. -/
theorem DomainsClient.Get_trace (enc : Encoding M R) (c : DomainsClient) (id : GoString)
    (query : odata.Query) :
    (DomainsClient.Get enc c id query).trace = [Event.Get (DomainsClient.GetInput id query)] ∨
    (DomainsClient.Get enc c id query).trace
      = [Event.Get (DomainsClient.GetInput id query), Event.ReadAll, Event.Close] ∨
    (DomainsClient.Get enc c id query).trace
      = [Event.Get (DomainsClient.GetInput id query),
          Event.ReadAll, Event.Unmarshal, Event.Close] := by
  simp only [DomainsClient.Get]
  repeat' split
  all_goals simp

/-- The traces of GetVerificationDnsRecords: the request alone, or the request, the read and the
close, with the decoding in between when the read succeeded. -/
theorem DomainsClient.GetVerificationDnsRecords_trace (enc : Encoding M R) (c : DomainsClient)
    (id : GoString) (query : odata.Query) :
    (DomainsClient.GetVerificationDnsRecords enc c id query).trace
      = [Event.Get (DomainsClient.GetVerificationDnsRecordsInput id query)] ∨
    (DomainsClient.GetVerificationDnsRecords enc c id query).trace
      = [Event.Get (DomainsClient.GetVerificationDnsRecordsInput id query),
          Event.ReadAll, Event.Close] ∨
    (DomainsClient.GetVerificationDnsRecords enc c id query).trace
      = [Event.Get (DomainsClient.GetVerificationDnsRecordsInput id query),
          Event.ReadAll, Event.Unmarshal, Event.Close] := by
  simp only [DomainsClient.GetVerificationDnsRecords]
  repeat' split
  all_goals simp

/-- The traces of VerifyDomain: the request alone, or the request, the read and the
close, with the decoding in between when the read succeeded. -/
theorem DomainsClient.VerifyDomain_trace (enc : Encoding M R) (c : DomainsClient) (id : GoString) :
    (DomainsClient.VerifyDomain enc c id).trace
      = [Event.Post (DomainsClient.VerifyDomainInput id)] ∨
    (DomainsClient.VerifyDomain enc c id).trace
      = [Event.Post (DomainsClient.VerifyDomainInput id), Event.ReadAll, Event.Close] ∨
    (DomainsClient.VerifyDomain enc c id).trace
      = [Event.Post (DomainsClient.VerifyDomainInput id),
          Event.ReadAll, Event.Unmarshal, Event.Close] := by
  simp only [DomainsClient.VerifyDomain]
  repeat' split
  all_goals simp

/-- The traces of Create: the request alone, or the request, the read and the
close, with the decoding in between when the read succeeded. -/
theorem DomainsClient.Create_trace (enc : Encoding M R) (c : DomainsClient) (id : GoString) :
    (DomainsClient.Create enc c id).trace
      = [Event.Post (DomainsClient.CreateInput (enc.render (Json.obj [("id", Json.str id)])))] ∨
    (DomainsClient.Create enc c id).trace
      = [Event.Post (DomainsClient.CreateInput (enc.render (Json.obj [("id", Json.str id)]))),
          Event.ReadAll, Event.Close] ∨
    (DomainsClient.Create enc c id).trace
      = [Event.Post (DomainsClient.CreateInput (enc.render (Json.obj [("id", Json.str id)]))),
          Event.ReadAll, Event.Unmarshal, Event.Close] := by
  simp only [DomainsClient.Create, json.Marshal_minimal]
  repeat' split
  all_goals simp

/-- C1 at a concrete input: a transport that refuses every request with
status 403 makes each of the six operations return an error, status 403 and
no result, with the request as its only event. -/
theorem transport_error_keeps_status_witness :
    ((∃ msg, (DomainsClient.List sample.encoding sample.forbidden odata.Query.zero).outcome
          = Outcome.returned ⟨none, 403, some msg⟩) ∧
      (DomainsClient.List sample.encoding sample.forbidden odata.Query.zero).trace
        = [Event.Get (DomainsClient.ListInput odata.Query.zero)]) ∧
    ((∃ msg, (DomainsClient.Get sample.encoding sample.forbidden "contoso.com"
          odata.Query.zero).outcome = Outcome.returned ⟨none, 403, some msg⟩) ∧
      (DomainsClient.Get sample.encoding sample.forbidden "contoso.com" odata.Query.zero).trace
        = [Event.Get (DomainsClient.GetInput "contoso.com" odata.Query.zero)]) ∧
    ((∃ msg, (DomainsClient.Create sample.encoding sample.forbidden "contoso.com").outcome
          = Outcome.returned ⟨none, 403, some msg⟩) ∧
      (DomainsClient.Create sample.encoding sample.forbidden "contoso.com").trace
        = [Event.Post (DomainsClient.CreateInput "\x7b\"id\":\"contoso.com\"\x7d")]) ∧
    ((∃ msg, (DomainsClient.Delete sample.forbidden "contoso.com").outcome
          = Outcome.returned ⟨403, some msg⟩) ∧
      (DomainsClient.Delete sample.forbidden "contoso.com").trace
        = [Event.Delete (DomainsClient.DeleteInput "contoso.com")]) ∧
    ((∃ msg, (DomainsClient.GetVerificationDnsRecords sample.encoding sample.forbidden
          "contoso.com" odata.Query.zero).outcome = Outcome.returned ⟨none, 403, some msg⟩) ∧
      (DomainsClient.GetVerificationDnsRecords sample.encoding sample.forbidden "contoso.com"
          odata.Query.zero).trace
        = [Event.Get (DomainsClient.GetVerificationDnsRecordsInput "contoso.com"
            odata.Query.zero)]) ∧
    ((∃ msg, (DomainsClient.VerifyDomain sample.encoding sample.forbidden "contoso.com").outcome
          = Outcome.returned ⟨none, 403, some msg⟩) ∧
      (DomainsClient.VerifyDomain sample.encoding sample.forbidden "contoso.com").trace
        = [Event.Post (DomainsClient.VerifyDomainInput "contoso.com")]) :=
  have h := transport_error_keeps_status sample.encoding sample.forbidden "contoso.com"
    odata.Query.zero none 403 "unexpected status 403"
  ⟨h.1 rfl, h.2.1 rfl, h.2.2.1 rfl, h.2.2.2.1 rfl, h.2.2.2.2.1 rfl, h.2.2.2.2.2 rfl⟩

/-- C3: for every identifier, each operation hands the transport exactly one
request, with the verb, path, accepted status codes and tenant flag of the
operation table, the identifier put into the path as it is. -/
theorem requests_follow_operation_table (enc : Encoding M R) (c : DomainsClient) (id : GoString)
    (query : odata.Query) :
    (∃ input, (DomainsClient.List enc c query).trace.filter Event.isRequest = [Event.Get input] ∧
      input.Uri = { Entity := "/domains", HasTenantId := true } ∧
      input.ValidStatusCodes = [200]) ∧
    (∃ input, (DomainsClient.Get enc c id query).trace.filter Event.isRequest
        = [Event.Get input] ∧
      input.Uri = { Entity := "/domains/" ++ id, HasTenantId := true } ∧
      input.ValidStatusCodes = [200]) ∧
    (∃ input, (DomainsClient.Create enc c id).trace.filter Event.isRequest = [Event.Post input] ∧
      input.Uri = { Entity := "/domains", HasTenantId := true } ∧
      input.ValidStatusCodes = [201]) ∧
    (∃ input, (DomainsClient.Delete c id).trace.filter Event.isRequest = [Event.Delete input] ∧
      input.Uri = { Entity := "/domains/" ++ id, HasTenantId := true } ∧
      input.ValidStatusCodes = [204]) ∧
    (∃ input, (DomainsClient.GetVerificationDnsRecords enc c id query).trace.filter
        Event.isRequest = [Event.Get input] ∧
      input.Uri = { Entity := "/domains/" ++ id ++ "/verificationDnsRecords",
                    HasTenantId := true } ∧
      input.ValidStatusCodes = [200]) ∧
    (∃ input, (DomainsClient.VerifyDomain enc c id).trace.filter Event.isRequest
        = [Event.Post input] ∧
      input.Uri = { Entity := "/domains/" ++ id ++ "/verify", HasTenantId := true } ∧
      input.ValidStatusCodes = [200]) := by
  refine ⟨⟨DomainsClient.ListInput query, ?_, rfl, rfl⟩,
    ⟨DomainsClient.GetInput id query, ?_, rfl, rfl⟩,
    ⟨DomainsClient.CreateInput (enc.render (Json.obj [("id", Json.str id)])), ?_, rfl, rfl⟩,
    ⟨DomainsClient.DeleteInput id, ?_, rfl, rfl⟩,
    ⟨DomainsClient.GetVerificationDnsRecordsInput id query, ?_, rfl, rfl⟩,
    ⟨DomainsClient.VerifyDomainInput id, ?_, rfl, rfl⟩⟩
  · rcases DomainsClient.List_trace enc c query with h | h | h <;> simp [h, Event.isRequest]
  · rcases DomainsClient.Get_trace enc c id query with h | h | h <;> simp [h, Event.isRequest]
  · rcases DomainsClient.Create_trace enc c id with h | h | h <;> simp [h, Event.isRequest]
  · simp only [DomainsClient.Delete]
    split <;> simp [Event.isRequest]
  · rcases DomainsClient.GetVerificationDnsRecords_trace enc c id query with h | h | h <;>
      simp [h, Event.isRequest]
  · rcases DomainsClient.VerifyDomain_trace enc c id with h | h | h <;>
      simp [h, Event.isRequest]

/-- C4: the one request descriptor of Get, Delete, GetVerificationDnsRecords
and VerifyDomain carries RetryOn404ConsistencyFailureFunc, and the one request
descriptor of List and of Create carries no retry predicate, for every
input. -/
theorem retry_predicate_per_operation (enc : Encoding M R) (c : DomainsClient) (id : GoString)
    (query : odata.Query) :
    (∃ input, (DomainsClient.Get enc c id query).trace.filter Event.isRequest
        = [Event.Get input] ∧
      input.ConsistencyFailureFunc
        = some ConsistencyFailureFunc.RetryOn404ConsistencyFailureFunc) ∧
    (∃ input, (DomainsClient.Delete c id).trace.filter Event.isRequest = [Event.Delete input] ∧
      input.ConsistencyFailureFunc
        = some ConsistencyFailureFunc.RetryOn404ConsistencyFailureFunc) ∧
    (∃ input, (DomainsClient.GetVerificationDnsRecords enc c id query).trace.filter
        Event.isRequest = [Event.Get input] ∧
      input.ConsistencyFailureFunc
        = some ConsistencyFailureFunc.RetryOn404ConsistencyFailureFunc) ∧
    (∃ input, (DomainsClient.VerifyDomain enc c id).trace.filter Event.isRequest
        = [Event.Post input] ∧
      input.ConsistencyFailureFunc
        = some ConsistencyFailureFunc.RetryOn404ConsistencyFailureFunc) ∧
    (∃ input, (DomainsClient.List enc c query).trace.filter Event.isRequest = [Event.Get input] ∧
      input.ConsistencyFailureFunc = none) ∧
    (∃ input, (DomainsClient.Create enc c id).trace.filter Event.isRequest = [Event.Post input] ∧
      input.ConsistencyFailureFunc = none) := by
  refine ⟨⟨DomainsClient.GetInput id query, ?_, rfl⟩,
    ⟨DomainsClient.DeleteInput id, ?_, rfl⟩,
    ⟨DomainsClient.GetVerificationDnsRecordsInput id query, ?_, rfl⟩,
    ⟨DomainsClient.VerifyDomainInput id, ?_, rfl⟩,
    ⟨DomainsClient.ListInput query, ?_, rfl⟩,
    ⟨DomainsClient.CreateInput (enc.render (Json.obj [("id", Json.str id)])), ?_, rfl⟩⟩
  · rcases DomainsClient.Get_trace enc c id query with h | h | h <;> simp [h, Event.isRequest]
  · simp only [DomainsClient.Delete]
    split <;> simp [Event.isRequest]
  · rcases DomainsClient.GetVerificationDnsRecords_trace enc c id query with h | h | h <;>
      simp [h, Event.isRequest]
  · rcases DomainsClient.VerifyDomain_trace enc c id with h | h | h <;>
      simp [h, Event.isRequest]
  · rcases DomainsClient.List_trace enc c query with h | h | h <;> simp [h, Event.isRequest]
  · rcases DomainsClient.Create_trace enc c id with h | h | h <;> simp [h, Event.isRequest]

/-- C8: for every query value, the one request descriptor that List, Get and
GetVerificationDnsRecords hand to the transport has the query as its OData
field, unchanged. -/
theorem query_passed_unmodified (enc : Encoding M R) (c : DomainsClient) (id : GoString)
    (query : odata.Query) :
    (∃ input, (DomainsClient.List enc c query).trace.filter Event.isRequest = [Event.Get input] ∧
      input.OData = query) ∧
    (∃ input, (DomainsClient.Get enc c id query).trace.filter Event.isRequest
        = [Event.Get input] ∧ input.OData = query) ∧
    (∃ input, (DomainsClient.GetVerificationDnsRecords enc c id query).trace.filter
        Event.isRequest = [Event.Get input] ∧ input.OData = query) := by
  refine ⟨⟨DomainsClient.ListInput query, ?_, rfl⟩,
    ⟨DomainsClient.GetInput id query, ?_, rfl⟩,
    ⟨DomainsClient.GetVerificationDnsRecordsInput id query, ?_, rfl⟩⟩
  · rcases DomainsClient.List_trace enc c query with h | h | h <;> simp [h, Event.isRequest]
  · rcases DomainsClient.Get_trace enc c id query with h | h | h <;> simp [h, Event.isRequest]
  · rcases DomainsClient.GetVerificationDnsRecords_trace enc c id query with h | h | h <;>
      simp [h, Event.isRequest]

/-- C2, counterexample: Delete answers a response whose body is not JSON (the
empty body of a 204 response) with a nil error; it has no decode error to
give. -/
theorem delete_accepts_malformed_body :
    (∃ e, sample.encoding.parse "" = Except.error e) ∧
    (DomainsClient.Delete (sample.answering 204 "") "contoso.com").outcome
      = Outcome.returned ⟨204, none⟩ :=
  ⟨⟨_, rfl⟩, rfl⟩

/-- C2, amended: for each of the five operations that have a result, when the
BaseClient call succeeds with status s, the body is read and json.Unmarshal
refuses it with error e, the operation returns no result, the status s and
the error "json.Unmarshal(): " followed by e, which does not start with the
name of the BaseClient call. Delete decodes nothing: when its BaseClient call
succeeds with status s it returns s and a nil error. -/
theorem decode_error_keeps_status (enc : Encoding M R) (c : DomainsClient) (id : GoString)
    (query : odata.Query) (resp : http.Response) (anyResp : Option http.Response) (s : Int)
    (body e : String) :
    (c.BaseClient.Get (DomainsClient.ListInput query) = ⟨some resp, s, none⟩ →
      io.ReadAll resp.Body = Except.ok body →
      json.Unmarshal enc (json.decodeListData enc) body
          { Domains := { live := [], spare := [] } } = Except.error e →
      (DomainsClient.List enc c query).outcome
        = Outcome.returned ⟨none, s, some ("json.Unmarshal(): " ++ e)⟩ ∧
      ∀ t, "json.Unmarshal(): " ++ e ≠ "DomainsClient.BaseClient.Get(): " ++ t) ∧
    (c.BaseClient.Get (DomainsClient.GetInput id query) = ⟨some resp, s, none⟩ →
      io.ReadAll resp.Body = Except.ok body →
      json.Unmarshal enc (json.decodeDomain enc) body
          { ID := none, metadata := enc.metadataZero } = Except.error e →
      (DomainsClient.Get enc c id query).outcome
        = Outcome.returned ⟨none, s, some ("json.Unmarshal(): " ++ e)⟩ ∧
      ∀ t, "json.Unmarshal(): " ++ e ≠ "DomainsClient.BaseClient.Get(): " ++ t) ∧
    (c.BaseClient.Post (DomainsClient.CreateInput (enc.render (Json.obj [("id", Json.str id)])))
        = ⟨some resp, s, none⟩ →
      io.ReadAll resp.Body = Except.ok body →
      json.Unmarshal enc (json.decodeDomain enc) body
          { ID := utils.StringPtr id, metadata := enc.metadataZero } = Except.error e →
      (DomainsClient.Create enc c id).outcome
        = Outcome.returned ⟨none, s, some ("json.Unmarshal(): " ++ e)⟩ ∧
      ∀ t, "json.Unmarshal(): " ++ e ≠ "DomainsClient.BaseClient.Post(): " ++ t) ∧
    (c.BaseClient.Get (DomainsClient.GetVerificationDnsRecordsInput id query)
        = ⟨some resp, s, none⟩ →
      io.ReadAll resp.Body = Except.ok body →
      json.UnmarshalRecord enc body = Except.error e →
      (DomainsClient.GetVerificationDnsRecords enc c id query).outcome
        = Outcome.returned ⟨none, s, some ("json.Unmarshal(): " ++ e)⟩ ∧
      ∀ t, "json.Unmarshal(): " ++ e ≠ "DomainsClient.BaseClient.Get(): " ++ t) ∧
    (c.BaseClient.Post (DomainsClient.VerifyDomainInput id) = ⟨some resp, s, none⟩ →
      io.ReadAll resp.Body = Except.ok body →
      json.Unmarshal enc (json.decodeDomain enc) body
          { ID := none, metadata := enc.metadataZero } = Except.error e →
      (DomainsClient.VerifyDomain enc c id).outcome
        = Outcome.returned ⟨none, s, some ("json.Unmarshal(): " ++ e)⟩ ∧
      ∀ t, "json.Unmarshal(): " ++ e ≠ "DomainsClient.BaseClient.Post(): " ++ t) ∧
    (c.BaseClient.Delete (DomainsClient.DeleteInput id) = ⟨anyResp, s, none⟩ →
      (DomainsClient.Delete c id).outcome = Outcome.returned ⟨s, none⟩) := by
  refine ⟨?_, ?_, ?_, ?_, ?_, fun h => by simp [DomainsClient.Delete, h]⟩
  · intro h hb hu
    refine ⟨?_, fun t ht => ?_⟩
    · simp [DomainsClient.List, h, hb, hu]
    · have h2 := congrArg String.data ht
      simp at h2
  · intro h hb hu
    refine ⟨?_, fun t ht => ?_⟩
    · simp [DomainsClient.Get, h, hb, hu]
    · have h2 := congrArg String.data ht
      simp at h2
  · intro h hb hu
    refine ⟨?_, fun t ht => ?_⟩
    · simp [DomainsClient.Create, json.Marshal_minimal, h, hb, hu]
    · have h2 := congrArg String.data ht
      simp at h2
  · intro h hb hu
    refine ⟨?_, fun t ht => ?_⟩
    · simp [DomainsClient.GetVerificationDnsRecords, h, hb, hu]
    · have h2 := congrArg String.data ht
      simp at h2
  · intro h hb hu
    refine ⟨?_, fun t ht => ?_⟩
    · simp [DomainsClient.VerifyDomain, h, hb, hu]
    · have h2 := congrArg String.data ht
      simp at h2

/-- C2 amended, at a concrete input: a transport that answers status 200 with
the body <html> makes each of the five operations return the decode error
and status 200, and Delete return a nil error; the body [], which is JSON of
the wrong shape, makes Get return the decode error too. -/
theorem decode_error_keeps_status_witness :
    ((DomainsClient.List sample.encoding (sample.answering 200 "<html>") odata.Query.zero).outcome
        = Outcome.returned ⟨none, 200, some "json.Unmarshal(): invalid JSON text"⟩ ∧
      ∀ t, "json.Unmarshal(): " ++ "invalid JSON text"
        ≠ "DomainsClient.BaseClient.Get(): " ++ t) ∧
    ((DomainsClient.Get sample.encoding (sample.answering 200 "<html>") "contoso.com" odata.Query.zero).outcome
        = Outcome.returned ⟨none, 200, some "json.Unmarshal(): invalid JSON text"⟩ ∧
      ∀ t, "json.Unmarshal(): " ++ "invalid JSON text"
        ≠ "DomainsClient.BaseClient.Get(): " ++ t) ∧
    ((DomainsClient.Create sample.encoding (sample.answering 200 "<html>") "contoso.com").outcome
        = Outcome.returned ⟨none, 200, some "json.Unmarshal(): invalid JSON text"⟩ ∧
      ∀ t, "json.Unmarshal(): " ++ "invalid JSON text"
        ≠ "DomainsClient.BaseClient.Post(): " ++ t) ∧
    ((DomainsClient.GetVerificationDnsRecords sample.encoding (sample.answering 200 "<html>")
        "contoso.com" odata.Query.zero).outcome
        = Outcome.returned ⟨none, 200, some "json.Unmarshal(): invalid JSON text"⟩ ∧
      ∀ t, "json.Unmarshal(): " ++ "invalid JSON text"
        ≠ "DomainsClient.BaseClient.Get(): " ++ t) ∧
    ((DomainsClient.VerifyDomain sample.encoding (sample.answering 200 "<html>") "contoso.com").outcome
        = Outcome.returned ⟨none, 200, some "json.Unmarshal(): invalid JSON text"⟩ ∧
      ∀ t, "json.Unmarshal(): " ++ "invalid JSON text"
        ≠ "DomainsClient.BaseClient.Post(): " ++ t) ∧
    ((DomainsClient.Get sample.encoding (sample.answering 200 "[]") "contoso.com"
        odata.Query.zero).outcome
        = Outcome.returned ⟨none, 200,
          some ("json.Unmarshal(): "
            ++ "json: cannot unmarshal array into Go value of type msgraph.Domain")⟩) ∧
    (DomainsClient.Delete (sample.answering 200 "<html>") "contoso.com").outcome
      = Outcome.returned ⟨200, none⟩ :=
  have h := decode_error_keeps_status sample.encoding (sample.answering 200 "<html>")
    "contoso.com" odata.Query.zero { Body := { content := Except.ok "<html>" } }
    (some { Body := { content := Except.ok "<html>" } }) 200 "<html>" "invalid JSON text"
  have g := decode_error_keeps_status sample.encoding (sample.answering 200 "[]")
    "contoso.com" odata.Query.zero { Body := { content := Except.ok "[]" } } none 200 "[]"
    "json: cannot unmarshal array into Go value of type msgraph.Domain"
  ⟨h.1 rfl rfl rfl, h.2.1 rfl rfl rfl, h.2.2.1 rfl rfl rfl, h.2.2.2.1 rfl rfl rfl,
    h.2.2.2.2.1 rfl rfl rfl, (g.2.1 rfl rfl rfl).1, h.2.2.2.2.2 rfl⟩

/-- The error of a transport failure, operation by operation: the five
operations with a result prefix the text of the transport error with
"DomainsClient.BaseClient." and the verb they call; Delete prefixes it with
"ApplicationsClient.BaseClient.Delete(): ". -/
theorem transport_error_names_domains_client (enc : Encoding M R) (c : DomainsClient)
    (id : GoString) (query : odata.Query) (resp : Option http.Response) (s : Int)
    (e : String) :
    (c.BaseClient.Get (DomainsClient.ListInput query) = ⟨resp, s, some e⟩ →
      (DomainsClient.List enc c query).outcome
        = Outcome.returned ⟨none, s, some ("DomainsClient.BaseClient.Get(): " ++ e)⟩) ∧
    (c.BaseClient.Get (DomainsClient.GetInput id query) = ⟨resp, s, some e⟩ →
      (DomainsClient.Get enc c id query).outcome
        = Outcome.returned ⟨none, s, some ("DomainsClient.BaseClient.Get(): " ++ e)⟩) ∧
    (c.BaseClient.Post (DomainsClient.CreateInput (enc.render (Json.obj [("id", Json.str id)])))
        = ⟨resp, s, some e⟩ →
      (DomainsClient.Create enc c id).outcome
        = Outcome.returned ⟨none, s, some ("DomainsClient.BaseClient.Post(): " ++ e)⟩) ∧
    (c.BaseClient.Get (DomainsClient.GetVerificationDnsRecordsInput id query) = ⟨resp, s, some e⟩ →
      (DomainsClient.GetVerificationDnsRecords enc c id query).outcome
        = Outcome.returned ⟨none, s, some ("DomainsClient.BaseClient.Get(): " ++ e)⟩) ∧
    (c.BaseClient.Post (DomainsClient.VerifyDomainInput id) = ⟨resp, s, some e⟩ →
      (DomainsClient.VerifyDomain enc c id).outcome
        = Outcome.returned ⟨none, s, some ("DomainsClient.BaseClient.Post(): " ++ e)⟩) ∧
    (c.BaseClient.Delete (DomainsClient.DeleteInput id) = ⟨resp, s, some e⟩ →
      (DomainsClient.Delete c id).outcome
        = Outcome.returned ⟨s, some ("ApplicationsClient.BaseClient.Delete(): " ++ e)⟩) := by
  refine ⟨?_, ?_, ?_, ?_, ?_, ?_⟩
  · intro h
    simp [DomainsClient.List, h]
  · intro h
    simp [DomainsClient.Get, h]
  · intro h
    simp [DomainsClient.Create, json.Marshal_minimal, h]
  · intro h
    simp [DomainsClient.GetVerificationDnsRecords, h]
  · intro h
    simp [DomainsClient.VerifyDomain, h]
  · intro h
    simp [DomainsClient.Delete, h]

/-- C6, the failing input evaluated: on a transport failure Delete names
ApplicationsClient, not DomainsClient, in the error it returns. -/
theorem delete_error_names_applications_client :
    (DomainsClient.Delete sample.forbidden "contoso.com").outcome
      = Outcome.returned
          ⟨403, some "ApplicationsClient.BaseClient.Delete(): unexpected status 403"⟩ ∧
    "ApplicationsClient.BaseClient.Delete(): unexpected status 403"
      ≠ "DomainsClient.BaseClient.Delete(): " ++ "unexpected status 403" :=
  ⟨rfl, by decide⟩

/-- C9, counterexample: Delete on a response that came without error issues
the request and nothing else; the body is neither read nor closed. -/
theorem delete_leaves_body_untouched :
    (DomainsClient.Delete (sample.answering 204 "") "contoso.com").outcome
      = Outcome.returned ⟨204, none⟩ ∧
    (DomainsClient.Delete (sample.answering 204 "") "contoso.com").trace
      = [Event.Delete (DomainsClient.DeleteInput "contoso.com")] ∧
    Event.ReadAll ∉ (DomainsClient.Delete (sample.answering 204 "") "contoso.com").trace ∧
    Event.Close ∉ (DomainsClient.Delete (sample.answering 204 "") "contoso.com").trace :=
  ⟨rfl, rfl, by decide, by decide⟩

/-- C9, amended: for each of the five operations that have a result, whenever
the transport call returns a response without error the operation returns,
and what it does after the request is: io.ReadAll on the body, json.Unmarshal
when the read succeeded, and Close on the body as its last event, on the
success path, on a read failure and on a decode failure alike. Delete issues
its request and returns: it neither reads nor closes the body. -/
theorem body_read_then_closed (enc : Encoding M R) (c : DomainsClient) (id : GoString)
    (query : odata.Query) (resp : http.Response) (anyResp : Option http.Response) (s : Int) :
    (c.BaseClient.Get (DomainsClient.ListInput query) = ⟨some resp, s, none⟩ →
      (∃ values, (DomainsClient.List enc c query).outcome = Outcome.returned values) ∧
      (DomainsClient.List enc c query).trace
        = Event.Get (DomainsClient.ListInput query) :: Event.ReadAll ::
            ((match io.ReadAll resp.Body with
              | Except.ok _ => [Event.Unmarshal]
              | Except.error _ => []) ++ [Event.Close])) ∧
    (c.BaseClient.Get (DomainsClient.GetInput id query) = ⟨some resp, s, none⟩ →
      (∃ values, (DomainsClient.Get enc c id query).outcome = Outcome.returned values) ∧
      (DomainsClient.Get enc c id query).trace
        = Event.Get (DomainsClient.GetInput id query) :: Event.ReadAll ::
            ((match io.ReadAll resp.Body with
              | Except.ok _ => [Event.Unmarshal]
              | Except.error _ => []) ++ [Event.Close])) ∧
    (c.BaseClient.Post (DomainsClient.CreateInput (enc.render (Json.obj [("id", Json.str id)])))
        = ⟨some resp, s, none⟩ →
      (∃ values, (DomainsClient.Create enc c id).outcome = Outcome.returned values) ∧
      (DomainsClient.Create enc c id).trace
        = Event.Post (DomainsClient.CreateInput (enc.render (Json.obj [("id", Json.str id)])))
            :: Event.ReadAll ::
            ((match io.ReadAll resp.Body with
              | Except.ok _ => [Event.Unmarshal]
              | Except.error _ => []) ++ [Event.Close])) ∧
    (c.BaseClient.Get (DomainsClient.GetVerificationDnsRecordsInput id query)
        = ⟨some resp, s, none⟩ →
      (∃ values, (DomainsClient.GetVerificationDnsRecords enc c id query).outcome
          = Outcome.returned values) ∧
      (DomainsClient.GetVerificationDnsRecords enc c id query).trace
        = Event.Get (DomainsClient.GetVerificationDnsRecordsInput id query) :: Event.ReadAll ::
            ((match io.ReadAll resp.Body with
              | Except.ok _ => [Event.Unmarshal]
              | Except.error _ => []) ++ [Event.Close])) ∧
    (c.BaseClient.Post (DomainsClient.VerifyDomainInput id) = ⟨some resp, s, none⟩ →
      (∃ values, (DomainsClient.VerifyDomain enc c id).outcome = Outcome.returned values) ∧
      (DomainsClient.VerifyDomain enc c id).trace
        = Event.Post (DomainsClient.VerifyDomainInput id) :: Event.ReadAll ::
            ((match io.ReadAll resp.Body with
              | Except.ok _ => [Event.Unmarshal]
              | Except.error _ => []) ++ [Event.Close])) ∧
    (c.BaseClient.Delete (DomainsClient.DeleteInput id) = ⟨anyResp, s, none⟩ →
      (DomainsClient.Delete c id).outcome = Outcome.returned ⟨s, none⟩ ∧
      (DomainsClient.Delete c id).trace = [Event.Delete (DomainsClient.DeleteInput id)]) := by
  refine ⟨?_, ?_, ?_, ?_, ?_, fun h => by simp [DomainsClient.Delete, h]⟩
  · intro h
    simp only [DomainsClient.List, h]
    repeat' split
    all_goals simp_all
  · intro h
    simp only [DomainsClient.Get, h]
    repeat' split
    all_goals simp_all
  · intro h
    simp only [DomainsClient.Create, json.Marshal_minimal, h]
    repeat' split
    all_goals simp_all
  · intro h
    simp only [DomainsClient.GetVerificationDnsRecords, h]
    repeat' split
    all_goals simp_all
  · intro h
    simp only [DomainsClient.VerifyDomain, h]
    repeat' split
    all_goals simp_all

/-- C9 amended, at concrete inputs: the traces of the five operations on a
transport that answers the body {} (success), on one whose body cannot be
read (read failure) and on one that answers <html> (decode failure). -/
theorem body_read_then_closed_witness :
    (DomainsClient.List sample.encoding (sample.answering 200 "\x7b\x7d") odata.Query.zero).trace
      = [Event.Get (DomainsClient.ListInput odata.Query.zero),
          Event.ReadAll, Event.Unmarshal, Event.Close] ∧
    (DomainsClient.Get sample.encoding (sample.answering 200 "\x7b\x7d") "contoso.com" odata.Query.zero).trace
      = [Event.Get (DomainsClient.GetInput "contoso.com" odata.Query.zero),
          Event.ReadAll, Event.Unmarshal, Event.Close] ∧
    (DomainsClient.Create sample.encoding (sample.answering 200 "\x7b\x7d") "contoso.com").trace
      = [Event.Post (DomainsClient.CreateInput "\x7b\"id\":\"contoso.com\"\x7d"),
          Event.ReadAll, Event.Unmarshal, Event.Close] ∧
    (DomainsClient.GetVerificationDnsRecords sample.encoding
        (sample.answering 200 "\x7b\x7d") "contoso.com" odata.Query.zero).trace
      = [Event.Get (DomainsClient.GetVerificationDnsRecordsInput "contoso.com" odata.Query.zero),
          Event.ReadAll, Event.Unmarshal, Event.Close] ∧
    (DomainsClient.VerifyDomain sample.encoding (sample.answering 200 "\x7b\x7d") "contoso.com").trace
      = [Event.Post (DomainsClient.VerifyDomainInput "contoso.com"),
          Event.ReadAll, Event.Unmarshal, Event.Close] ∧
    (DomainsClient.List sample.encoding sample.unreadable odata.Query.zero).trace
      = [Event.Get (DomainsClient.ListInput odata.Query.zero),
          Event.ReadAll, Event.Close] ∧
    (DomainsClient.Get sample.encoding sample.unreadable "contoso.com" odata.Query.zero).trace
      = [Event.Get (DomainsClient.GetInput "contoso.com" odata.Query.zero),
          Event.ReadAll, Event.Close] ∧
    (DomainsClient.Create sample.encoding sample.unreadable "contoso.com").trace
      = [Event.Post (DomainsClient.CreateInput "\x7b\"id\":\"contoso.com\"\x7d"),
          Event.ReadAll, Event.Close] ∧
    (DomainsClient.GetVerificationDnsRecords sample.encoding
        sample.unreadable "contoso.com" odata.Query.zero).trace
      = [Event.Get (DomainsClient.GetVerificationDnsRecordsInput "contoso.com" odata.Query.zero),
          Event.ReadAll, Event.Close] ∧
    (DomainsClient.VerifyDomain sample.encoding sample.unreadable "contoso.com").trace
      = [Event.Post (DomainsClient.VerifyDomainInput "contoso.com"),
          Event.ReadAll, Event.Close] ∧
    (DomainsClient.List sample.encoding (sample.answering 200 "<html>") odata.Query.zero).trace
      = [Event.Get (DomainsClient.ListInput odata.Query.zero),
          Event.ReadAll, Event.Unmarshal, Event.Close] ∧
    (DomainsClient.Get sample.encoding (sample.answering 200 "<html>") "contoso.com" odata.Query.zero).trace
      = [Event.Get (DomainsClient.GetInput "contoso.com" odata.Query.zero),
          Event.ReadAll, Event.Unmarshal, Event.Close] ∧
    (DomainsClient.Create sample.encoding (sample.answering 200 "<html>") "contoso.com").trace
      = [Event.Post (DomainsClient.CreateInput "\x7b\"id\":\"contoso.com\"\x7d"),
          Event.ReadAll, Event.Unmarshal, Event.Close] ∧
    (DomainsClient.GetVerificationDnsRecords sample.encoding
        (sample.answering 200 "<html>") "contoso.com" odata.Query.zero).trace
      = [Event.Get (DomainsClient.GetVerificationDnsRecordsInput "contoso.com" odata.Query.zero),
          Event.ReadAll, Event.Unmarshal, Event.Close] ∧
    (DomainsClient.VerifyDomain sample.encoding (sample.answering 200 "<html>") "contoso.com").trace
      = [Event.Post (DomainsClient.VerifyDomainInput "contoso.com"),
          Event.ReadAll, Event.Unmarshal, Event.Close] :=
  have a := body_read_then_closed sample.encoding (sample.answering 200 "\x7b\x7d")
    "contoso.com" odata.Query.zero { Body := { content := Except.ok "\x7b\x7d" } } none 200
  have b := body_read_then_closed sample.encoding sample.unreadable
    "contoso.com" odata.Query.zero { Body := { content := Except.error "unexpected EOF" } } none
    200
  have d := body_read_then_closed sample.encoding (sample.answering 200 "<html>")
    "contoso.com" odata.Query.zero { Body := { content := Except.ok "<html>" } } none 200
  ⟨(a.1 rfl).2, (a.2.1 rfl).2, (a.2.2.1 rfl).2, (a.2.2.2.1 rfl).2, (a.2.2.2.2.1 rfl).2,
    (b.1 rfl).2, (b.2.1 rfl).2, (b.2.2.1 rfl).2, (b.2.2.2.1 rfl).2, (b.2.2.2.2.1 rfl).2,
    (d.1 rfl).2, (d.2.1 rfl).2, (d.2.2.1 rfl).2, (d.2.2.2.1 rfl).2, (d.2.2.2.2.1 rfl).2⟩

/-- One member stored into a Domain: the identifier afterwards is the value of
the member when it selects id, and the old identifier otherwise. -/
theorem json.decodeDomainMember_ID (enc : Encoding M R) (d d1 : Domain M) (kv : String × Json)
    (h : json.decodeDomainMember enc d kv = Except.ok d1) :
    d1.ID = if json.fieldMatches "id" kv.1 then
        (match kv.2 with
         | Json.str s => some s
         | _ => none)
      else d.ID := by
  obtain ⟨k, v⟩ := kv
  unfold json.decodeDomainMember at h
  by_cases hm : json.fieldMatches "id" k = true
  · cases v <;> simp [hm] at h <;> simp [hm, ← h]
  · cases hd : enc.metadataDecode k v d.metadata <;> simp [hm, hd] at h
    simp [hm, ← h]

/-- The identifier after decoding the members of an object: the string of the
last member selecting id, nil when that member is null, and the identifier the
Domain had before when no member selects id. -/
theorem json.decodeDomainMembers_ID (enc : Encoding M R) (members : List (String × Json)) :
    ∀ d d1 : Domain M, json.decodeDomainMembers enc members d = Except.ok d1 →
      d1.ID = match json.idMember members with
        | none => d.ID
        | some (Json.str s) => some s
        | some _ => none := by
  induction members with
  | nil =>
    intro d d1 h
    simp only [json.decodeDomainMembers] at h
    cases h
    simp [json.idMember]
  | cons kv rest ih =>
    intro d d1 h
    simp only [json.decodeDomainMembers] at h
    split at h
    · rename_i d2 h2
      have hrest := ih d2 d1 h
      have hkv := json.decodeDomainMember_ID enc d d2 kv h2
      simp only [json.idMember]
      cases hr : json.idMember rest with
      | some v => cases v <;> simpa [hr] using hrest
      | none =>
        simp only [hr] at hrest ⊢
        by_cases hm : json.fieldMatches "id" kv.1 = true
        · simp only [hm, if_true] at hkv ⊢
          rw [hrest, hkv]
          cases kv.2 <;> rfl
        · simp only [hm] at hkv ⊢
          rw [hrest, hkv]
          simp
    · cases h

/-- No member selects id exactly when idMember finds none. -/
theorem json.idMember_eq_none (members : List (String × Json)) :
    json.idMember members = none ↔ ∀ kv ∈ members, json.fieldMatches "id" kv.1 = false := by
  induction members with
  | nil => simp [json.idMember]
  | cons kv rest ih =>
    simp only [json.idMember, List.mem_cons, forall_eq_or_imp]
    cases hr : json.idMember rest with
    | some v =>
      constructor
      · intro h
        cases h
      · intro hall
        have hn := ih.mpr hall.2
        rw [hr] at hn
        cases hn
    | none =>
      have ih2 := ih.mp hr
      cases hm : json.fieldMatches "id" kv.1 with
      | true => simp
      | false => simpa using fun a b hab => ih2 (a, b) hab

/-- Decoding the same members into two Domains with the same metadata fields:
when one succeeds so does the other, with the same metadata afterwards. -/
theorem json.decodeDomainMembers_metadata (enc : Encoding M R) (members : List (String × Json)) :
    ∀ (a b : Option GoString) (m : M) (d : Domain M),
      json.decodeDomainMembers enc members { ID := a, metadata := m } = Except.ok d →
      ∃ d2, json.decodeDomainMembers enc members { ID := b, metadata := m } = Except.ok d2 ∧
        d2.metadata = d.metadata := by
  induction members with
  | nil =>
    intro a b m d h
    simp only [json.decodeDomainMembers] at h
    cases h
    exact ⟨_, rfl, rfl⟩
  | cons kv rest ih =>
    intro a b m d h
    simp only [json.decodeDomainMembers, json.decodeDomainMember] at h ⊢
    by_cases hm : json.fieldMatches "id" kv.1 = true
    · simp only [hm, if_true] at h ⊢
      cases hv : kv.2 <;> simp only [hv] at h ⊢ <;>
        first
        | exact ih _ _ _ _ h
        | cases h
    · simp only [hm] at h ⊢
      cases hd : enc.metadataDecode kv.1 kv.2 m with
      | error e => simp [hd] at h
      | ok m1 =>
        simp only [hd] at h ⊢
        exact ih _ _ _ _ h

/-- The identifier of a Domain decoded from a JSON value into a Domain without
identifier is the identifier the value carries. -/
theorem json.decodeDomain_identifier (enc : Encoding M R) (v : Json) (m : M) (dom : Domain M)
    (h : json.decodeDomain enc v { ID := none, metadata := m } = Except.ok dom) :
    dom.ID = Json.identifier v := by
  cases v <;> simp only [json.decodeDomain, reduceCtorEq] at h
  case null =>
    cases h
    rfl
  case obj members =>
    have hid := json.decodeDomainMembers_ID enc members _ dom h
    rw [hid]
    simp only [Json.identifier]
    cases json.idMember members with
    | none => rfl
    | some v => cases v <;> rfl

/-- Items decoded into a slice that has no backing array yet: when every item
decodes as a Domain, the items decode to the list of those Domains, in
order. -/
theorem json.decodeDomainItems_fresh (enc : Encoding M R) (ds : List Json)
    (h : ∀ d ∈ ds, ∃ dom,
      json.decodeDomain enc d { ID := none, metadata := enc.metadataZero } = Except.ok dom) :
    ∃ doms, json.decodeDomainItems enc ds [] = Except.ok doms ∧
      List.Forall₂ (fun d dom =>
        json.decodeDomain enc d { ID := none, metadata := enc.metadataZero } = Except.ok dom)
        ds doms := by
  induction ds with
  | nil => exact ⟨[], rfl, List.Forall₂.nil⟩
  | cons d rest ih =>
    obtain ⟨dom, hdom⟩ := h d (List.mem_cons_self d rest)
    obtain ⟨doms, hdoms, hall⟩ := ih (fun x hx => h x (List.mem_cons_of_mem d hx))
    refine ⟨dom :: doms, ?_, List.Forall₂.cons hdom hall⟩
    simp [json.decodeDomainItems, hdom, hdoms]

/-- C5: when the transport succeeds with status s and the body is the envelope
with the one member value holding the array d1..dn, each di a JSON value that
decodes as a Domain, List returns a nil error, the status s and n Domains,
the i-th being the decoding of di and having the identifier di carries, in
the order of the array. -/
theorem list_decodes_envelope_in_order (enc : Encoding M R) (c : DomainsClient)
    (query : odata.Query) (resp : http.Response) (s : Int) (body : String) (ds : List Json)
    (ht : c.BaseClient.Get (DomainsClient.ListInput query) = ⟨some resp, s, none⟩)
    (hb : io.ReadAll resp.Body = Except.ok body)
    (hp : enc.parse body = Except.ok (Json.obj [("value", Json.arr ds)]))
    (hd : ∀ d ∈ ds, ∃ dom,
      json.decodeDomain enc d { ID := none, metadata := enc.metadataZero } = Except.ok dom) :
    ∃ doms, (DomainsClient.List enc c query).outcome = Outcome.returned ⟨some doms, s, none⟩ ∧
      doms.length = ds.length ∧
      List.Forall₂ (fun d dom =>
        json.decodeDomain enc d { ID := none, metadata := enc.metadataZero } = Except.ok dom)
        ds doms ∧
      doms.map (fun dom => dom.ID) = ds.map Json.identifier := by
  obtain ⟨doms, hdoms, hall⟩ := json.decodeDomainItems_fresh enc ds hd
  have hm : json.fieldMatches "value" "value" = true := by decide
  refine ⟨doms, ?_, hall.length_eq.symm, hall, ?_⟩
  · cases ds with
    | nil =>
      simp only [json.decodeDomainItems] at hdoms
      cases hdoms
      simp [DomainsClient.List, ht, hb, json.Unmarshal, hp, json.decodeListData,
        json.decodeListDataMembers, json.decodeListDataMember, hm, json.decodeDomainSlice]
    | cons d rest =>
      simp [DomainsClient.List, ht, hb, json.Unmarshal, hp, json.decodeListData,
        json.decodeListDataMembers, json.decodeListDataMember, hm, json.decodeDomainSlice,
        hdoms]
  · clear hdoms hd hp
    induction hall with
    | nil => rfl
    | cons h _ ih =>
      simp only [List.map_cons, ih, json.decodeDomain_identifier enc _ _ _ h]

/-- C5 at the input of the spec: the body
{"value":[{"id":"a.com"},{"id":"b.com"}]} with status 200 makes List return
two Domains with the identifiers a.com and b.com, in that order. -/
theorem list_decodes_envelope_in_order_witness :
    sample.encoding.parse sample.listBody
      = Except.ok (Json.obj [("value",
          Json.arr [Json.obj [("id", Json.str "a.com")], Json.obj [("id", Json.str "b.com")]])]) ∧
    ∃ doms, (DomainsClient.List sample.encoding (sample.answering 200 sample.listBody)
        odata.Query.zero).outcome = Outcome.returned ⟨some doms, 200, none⟩ ∧
      doms.length = 2 ∧
      List.Forall₂ (fun d dom =>
        json.decodeDomain sample.encoding d
          { ID := none, metadata := sample.encoding.metadataZero } = Except.ok dom)
        [Json.obj [("id", Json.str "a.com")], Json.obj [("id", Json.str "b.com")]] doms ∧
      doms.map (fun dom => dom.ID) = ([some "a.com", some "b.com"] : List (Option GoString)) :=
  ⟨rfl,
    list_decodes_envelope_in_order sample.encoding (sample.answering 200 sample.listBody)
      odata.Query.zero { Body := { content := Except.ok sample.listBody } } 200 sample.listBody
      [Json.obj [("id", Json.str "a.com")], Json.obj [("id", Json.str "b.com")]]
      rfl rfl rfl
      (by
        intro d hd
        simp only [List.mem_cons, List.mem_singleton, List.not_mem_nil, or_false] at hd
        rcases hd with rfl | rfl
        · exact ⟨_, rfl⟩
        · exact ⟨_, rfl⟩)⟩

/-- C10: when the transport succeeds with status s and the response body is a
JSON object that decodes as a Domain, Create returns a nil error, the status s
and the Domain it built for the request with the members of the body stored
into it: when no member of the body selects the field id the identifier is
still the requested id, and when a member does, the identifier is the one the
body carries. A member selects the field id as encoding/json matches names:
id, in any case of its letters. -/
theorem create_keeps_requested_id (enc : Encoding M R) (c : DomainsClient) (id : GoString)
    (resp : http.Response) (s : Int) (body : String) (members : List (String × Json))
    (dom0 : Domain M)
    (ht : c.BaseClient.Post
        (DomainsClient.CreateInput (enc.render (Json.obj [("id", Json.str id)])))
      = ⟨some resp, s, none⟩)
    (hb : io.ReadAll resp.Body = Except.ok body)
    (hp : enc.parse body = Except.ok (Json.obj members))
    (hd : json.decodeDomain enc (Json.obj members) { ID := none, metadata := enc.metadataZero }
      = Except.ok dom0) :
    ∃ domain, (DomainsClient.Create enc c id).outcome
        = Outcome.returned ⟨some domain, s, none⟩ ∧
      domain.metadata = dom0.metadata ∧
      ((∀ kv ∈ members, json.fieldMatches "id" kv.1 = false) → domain.ID = some id) ∧
      ((∃ kv ∈ members, json.fieldMatches "id" kv.1 = true) →
        domain.ID = Json.identifier (Json.obj members)) := by
  simp only [json.decodeDomain] at hd
  obtain ⟨d2, hd2, hmeta⟩ :=
    json.decodeDomainMembers_metadata enc members none (some id) enc.metadataZero dom0 hd
  have hid := json.decodeDomainMembers_ID enc members _ d2 hd2
  refine ⟨d2, ?_, hmeta, ?_, ?_⟩
  · have hM := json.Marshal_minimal enc id
    simp only [utils.StringPtr] at hM
    simp [DomainsClient.Create, hM, ht, hb, json.Unmarshal, hp, json.decodeDomain,
      utils.StringPtr, hd2]
  · intro hno
    rw [(json.idMember_eq_none members).mpr hno] at hid
    exact hid
  · intro hsome
    have hne : json.idMember members ≠ none := by
      intro hnone
      obtain ⟨kv, hkv, hmatch⟩ := hsome
      rw [(json.idMember_eq_none members).mp hnone kv hkv] at hmatch
      cases hmatch
    rw [hid]
    simp only [Json.identifier]
    cases hv : json.idMember members with
    | none => exact absurd hv hne
    | some v => cases v <;> rfl

/-- C10 at concrete inputs: Create of contoso.com on a transport that answers
status 201. With the body {} and with the body {"isVerified":true} the
returned identifier is contoso.com; with the body {"id":"fabrikam.com"} and
with the body {"ID":"fabrikam.com"} it is fabrikam.com. -/
theorem create_keeps_requested_id_witness :
    (∃ domain, (DomainsClient.Create sample.encoding (sample.answering 201 "\x7b\x7d")
        "contoso.com").outcome = Outcome.returned ⟨some domain, 201, none⟩ ∧
      domain.ID = some "contoso.com") ∧
    (∃ domain, (DomainsClient.Create sample.encoding
        (sample.answering 201 "\x7b\"isVerified\":true\x7d")
        "contoso.com").outcome = Outcome.returned ⟨some domain, 201, none⟩ ∧
      domain.ID = some "contoso.com" ∧ domain.metadata.isVerified = some true) ∧
    (∃ domain, (DomainsClient.Create sample.encoding
        (sample.answering 201 "\x7b\"id\":\"fabrikam.com\"\x7d")
        "contoso.com").outcome = Outcome.returned ⟨some domain, 201, none⟩ ∧
      domain.ID = some "fabrikam.com") ∧
    (∃ domain, (DomainsClient.Create sample.encoding
        (sample.answering 201 "\x7b\"ID\":\"fabrikam.com\"\x7d")
        "contoso.com").outcome = Outcome.returned ⟨some domain, 201, none⟩ ∧
      domain.ID = some "fabrikam.com") :=
  ⟨(match create_keeps_requested_id sample.encoding (sample.answering 201 "\x7b\x7d")
        "contoso.com" { Body := { content := Except.ok "\x7b\x7d" } } 201 "\x7b\x7d" []
        { ID := none, metadata := sample.encoding.metadataZero } rfl rfl rfl rfl with
    | ⟨d, h1, _, h3, _⟩ => ⟨d, h1, h3 (by simp)⟩),
   (match create_keeps_requested_id sample.encoding
        (sample.answering 201 "\x7b\"isVerified\":true\x7d") "contoso.com"
        { Body := { content := Except.ok "\x7b\"isVerified\":true\x7d" } } 201
        "\x7b\"isVerified\":true\x7d" [("isVerified", Json.bool true)]
        { ID := none, metadata := { isVerified := some true, authenticationType := none } }
        rfl rfl rfl rfl with
    | ⟨d, h1, h2, h3, _⟩ => ⟨d, h1, h3 (by decide), by rw [h2]⟩),
   (match create_keeps_requested_id sample.encoding
        (sample.answering 201 "\x7b\"id\":\"fabrikam.com\"\x7d") "contoso.com"
        { Body := { content := Except.ok "\x7b\"id\":\"fabrikam.com\"\x7d" } } 201
        "\x7b\"id\":\"fabrikam.com\"\x7d" [("id", Json.str "fabrikam.com")]
        { ID := some "fabrikam.com", metadata := sample.encoding.metadataZero }
        rfl rfl rfl rfl with
    | ⟨d, h1, _, _, h4⟩ => ⟨d, h1, h4 (by decide)⟩),
   (match create_keeps_requested_id sample.encoding
        (sample.answering 201 "\x7b\"ID\":\"fabrikam.com\"\x7d") "contoso.com"
        { Body := { content := Except.ok "\x7b\"ID\":\"fabrikam.com\"\x7d" } } 201
        "\x7b\"ID\":\"fabrikam.com\"\x7d" [("ID", Json.str "fabrikam.com")]
        { ID := some "fabrikam.com", metadata := sample.encoding.metadataZero }
        rfl rfl rfl rfl with
    | ⟨d, h1, _, _, h4⟩ => ⟨d, h1, h4 (by decide)⟩)⟩

/-- A byte built from a number below 256 is that number. -/
theorem utf8.toNat_ofNat (n : Nat) (h : n < 256) : (UInt8.ofNat n).toNat = n := by
  show (Fin.ofNat n).val = n
  simp only [Fin.ofNat]
  omega

/-- The scalar value of a character lies outside the surrogates and below
0x110000. -/
theorem utf8.toNat_valid (c : Char) :
    c.toNat < 0xD800 ∨ (0xDFFF < c.toNat ∧ c.toNat < 0x110000) := by
  have h := c.valid
  simpa [UInt32.isValidChar, Nat.isValidChar, Char.toNat] using h

/-- DecodeRune reads back the encoding of a rune, whatever follows it. -/
theorem utf8.DecodeRune_encodeRune (c : Char) (rest : List UInt8) :
    utf8.DecodeRune (utf8.encodeRune c ++ rest) = some (c, (utf8.encodeRune c).length) := by
  have hv := utf8.toNat_valid c
  have hc := Char.ofNat_toNat c
  generalize hn : c.toNat = n at hv hc
  unfold utf8.encodeRune
  rw [hn]
  by_cases h1 : n < 0x80
  · simp only [h1, if_true, List.cons_append, List.nil_append, utf8.DecodeRune,
      utf8.toNat_ofNat n (by omega), List.length_singleton, hc]
  · by_cases h2 : n < 0x800
    · simp only [h1, h2, if_true, if_false, List.cons_append, List.nil_append, utf8.DecodeRune,
        utf8.toNat_ofNat (0xC0 + n / 0x40) (by omega),
        utf8.toNat_ofNat (0x80 + n % 0x40) (by omega)]
      rw [if_neg (by omega), if_neg (by omega), if_pos (by omega), if_pos (by omega)]
      have : (0xC0 + n / 0x40) % 0x20 * 0x40 + (0x80 + n % 0x40) % 0x40 = n := by omega
      rw [this, hc]
      rfl
    · by_cases h3 : n < 0x10000
      · simp only [h1, h2, h3, if_true, if_false, List.cons_append, List.nil_append,
          utf8.DecodeRune,
          utf8.toNat_ofNat (0xE0 + n / 0x1000) (by omega),
          utf8.toNat_ofNat (0x80 + n / 0x40 % 0x40) (by omega),
          utf8.toNat_ofNat (0x80 + n % 0x40) (by omega)]
        rw [if_neg (by omega), if_neg (by omega), if_neg (by omega), if_pos (by omega)]
        rw [if_pos (by split_ifs <;> omega)]
        have : (0xE0 + n / 0x1000) % 0x10 * 0x1000 + (0x80 + n / 0x40 % 0x40) % 0x40 * 0x40
            + (0x80 + n % 0x40) % 0x40 = n := by omega
        rw [this, hc]
        rfl
      · simp only [h1, h2, h3, if_true, if_false, List.cons_append, List.nil_append,
          utf8.DecodeRune,
          utf8.toNat_ofNat (0xF0 + n / 0x40000) (by omega),
          utf8.toNat_ofNat (0x80 + n / 0x1000 % 0x40) (by omega),
          utf8.toNat_ofNat (0x80 + n / 0x40 % 0x40) (by omega),
          utf8.toNat_ofNat (0x80 + n % 0x40) (by omega)]
        rw [if_neg (by omega), if_neg (by omega), if_neg (by omega), if_neg (by omega),
          if_pos (by omega)]
        rw [if_pos (by split_ifs <;> omega)]
        have : (0xF0 + n / 0x40000) % 0x08 * 0x40000 + (0x80 + n / 0x1000 % 0x40) % 0x40 * 0x1000
            + (0x80 + n / 0x40 % 0x40) % 0x40 * 0x40 + (0x80 + n % 0x40) % 0x40 = n := by omega
        rw [this, hc]
        rfl

/-- The encoding of a rune is not empty. -/
theorem utf8.encodeRune_pos (c : Char) : 0 < (utf8.encodeRune c).length := by
  unfold utf8.encodeRune
  split_ifs <;> simp

/-- The runes of the encoding of a text are the characters of the text: no
byte of it is invalid. -/
theorem utf8.runes_encode (cs : List Char) :
    ∀ fuel, (utf8.encode cs).length ≤ fuel →
      utf8.runes fuel (utf8.encode cs) = cs.map some := by
  induction cs with
  | nil =>
    intro fuel _
    cases fuel <;> rfl
  | cons c cs ih =>
    intro fuel hf
    have hpos := utf8.encodeRune_pos c
    simp only [utf8.encode, List.length_append] at hf
    obtain ⟨f, rfl⟩ : ∃ f, fuel = f + 1 := ⟨fuel - 1, by omega⟩
    have hdec := utf8.DecodeRune_encodeRune c (utf8.encode cs)
    cases hb : utf8.encodeRune c with
    | nil => simp [hb] at hpos
    | cons b tl =>
      rw [hb] at hdec hf
      simp only [List.cons_append] at hdec
      simp only [utf8.encode, hb, List.cons_append, utf8.runes, hdec, List.map_cons]
      rw [← List.cons_append, List.drop_left]
      rw [ih f (by simp only [List.length_cons] at hf; omega)]

/-- A hexadecimal digit reads back as its value. -/
theorem sample.hexValue_hexDigit :
    ∀ d, d < 16 → sample.hexValue (sample.hexDigit d) = some d := by
  decide

/-- Four hexadecimal digits read back as the number they write. -/
theorem sample.hex4_hexDigit (a b c d : Nat) (ha : a < 16) (hb : b < 16) (hc : c < 16)
    (hd : d < 16) (rest : List Char) :
    sample.hex4 (sample.hexDigit a :: sample.hexDigit b :: sample.hexDigit c
        :: sample.hexDigit d :: rest)
      = some (((a * 16 + b) * 16 + c) * 16 + d, rest) := by
  simp only [sample.hex4, sample.hexValue_hexDigit a ha, sample.hexValue_hexDigit b hb,
    sample.hexValue_hexDigit c hc, sample.hexValue_hexDigit d hd]

/-- The escape u with the four digits of a number that is no surrogate reads
back as the character with that number. -/
theorem sample.readUnicode_hexDigit (a b c d : Nat) (ha : a < 16) (hb : b < 16) (hc : c < 16)
    (hd : d < 16) (rest : List Char)
    (hs : ((a * 16 + b) * 16 + c) * 16 + d < 0xD800 ∨
      0xE000 ≤ ((a * 16 + b) * 16 + c) * 16 + d) :
    sample.readUnicode (sample.hexDigit a :: sample.hexDigit b :: sample.hexDigit c
        :: sample.hexDigit d :: rest)
      = some (Char.ofNat (((a * 16 + b) * 16 + c) * 16 + d), rest) := by
  simp only [sample.readUnicode, sample.hex4_hexDigit a b c d ha hb hc hd]
  rw [if_neg (by omega), if_neg (by omega)]

/-- Reading what Marshal writes for one rune gives the rune back. -/
theorem sample.parseString_writeRune (c : Char) (fuel : Nat) (rest acc : List Char) :
    sample.parseString (fuel + 1) (sample.writeRune c ++ rest) acc
      = sample.parseString fuel rest (c :: acc) := by
  have hc := Char.ofNat_toNat c
  unfold sample.writeRune
  split_ifs with h1 h2 h3 h4 h5 h6 h7
  · have : c = '"' := by simpa using h1
    subst this
    simp [sample.parseString, sample.readEscape]
  · have : c = '\\' := by simpa using h2
    subst this
    simp [sample.parseString, sample.readEscape]
  · have : c = '\n' := by simpa using h3
    subst this
    simp [sample.parseString, sample.readEscape]
  · have : c = '\r' := by simpa using h4
    subst this
    simp [sample.parseString, sample.readEscape]
  · have : c = '\t' := by simpa using h5
    subst this
    simp [sample.parseString, sample.readEscape]
  · have hlt : c.toNat < 0x80 := by
      simp only [Bool.or_eq_true, decide_eq_true_eq, beq_iff_eq] at h6
      rcases h6 with ((h | h) | h) | h
      · omega
      · subst h; decide
      · subst h; decide
      · subst h; decide
    have hu := sample.readUnicode_hexDigit 0 0 (c.toNat / 16) (c.toNat % 16) (by omega)
      (by omega) (by omega) (by omega) rest (by omega)
    have h0 : sample.hexDigit 0 = '0' := by decide
    rw [h0] at hu
    have hn : ((0 * 16 + 0) * 16 + c.toNat / 16) * 16 + c.toNat % 16 = c.toNat := by omega
    rw [hn, hc] at hu
    simp [sample.parseString, sample.readEscape, hu]
  · have h28 : c.toNat = 0x2028 ∨ c.toNat = 0x2029 := by
      simpa using h7
    have hu := sample.readUnicode_hexDigit 2 0 2 (c.toNat % 16) (by omega)
      (by omega) (by omega) (by omega) rest (by omega)
    have h0 : sample.hexDigit 0 = '0' := by decide
    have h2 : sample.hexDigit 2 = '2' := by decide
    rw [h0, h2] at hu
    have hn : ((2 * 16 + 0) * 16 + 2) * 16 + c.toNat % 16 = c.toNat := by omega
    rw [hn, hc] at hu
    simp [sample.parseString, sample.readEscape, hu]
  · have hq : c ≠ '"' := by simpa using h1
    have hb : c ≠ '\\' := by simpa using h2
    have hl : ¬ c.toNat < 0x20 := by
      intro hlt
      simp [hlt] at h6
    simp [sample.parseString, hq, hb, hl]

/-- Reading the escape that Marshal writes for an invalid byte gives
U+FFFD. -/
theorem sample.parseString_invalid (fuel : Nat) (rest acc : List Char) :
    sample.parseString (fuel + 1) (['\\', 'u', 'f', 'f', 'f', 'd'] ++ rest) acc
      = sample.parseString fuel rest (Char.ofNat 0xFFFD :: acc) := by
  have hu := sample.readUnicode_hexDigit 15 15 15 13 (by omega) (by omega) (by omega)
    (by omega) rest (by omega)
  have hf : sample.hexDigit 15 = 'f' := by decide
  have hd : sample.hexDigit 13 = 'd' := by decide
  rw [hf, hd] at hu
  simp [sample.parseString, sample.readEscape, hu]

/-- Marshal writes at least one character for each rune. -/
theorem sample.length_writeRunes (pieces : List (Option Char)) :
    pieces.length ≤ (sample.writeRunes pieces).length := by
  induction pieces with
  | nil => simp [sample.writeRunes]
  | cons p ps ih =>
    cases p with
    | none =>
      simp only [sample.writeRunes, List.length_cons, List.length_append]
      omega
    | some c =>
      have h1 : 1 ≤ (sample.writeRune c).length := by
        unfold sample.writeRune
        split_ifs <;> simp
      simp only [sample.writeRunes, List.length_cons, List.length_append]
      omega

/-- Reading the string literal that Marshal writes gives the runes of the Go
string, with U+FFFD in place of each invalid byte. -/
theorem sample.parseString_writeRunes (pieces : List (Option Char)) :
    ∀ (fuel : Nat) (rest acc : List Char), pieces.length < fuel →
      sample.parseString fuel (sample.writeRunes pieces ++ '"' :: rest) acc
        = some (String.mk (acc.reverse ++ pieces.map (fun p => p.getD (Char.ofNat 0xFFFD))),
            rest) := by
  induction pieces with
  | nil =>
    intro fuel rest acc hf
    obtain ⟨f, rfl⟩ : ∃ f, fuel = f + 1 := ⟨fuel - 1, by omega⟩
    simp [sample.writeRunes, sample.parseString]
  | cons p ps ih =>
    intro fuel rest acc hf
    simp only [List.length_cons] at hf
    obtain ⟨f, rfl⟩ : ∃ f, fuel = f + 1 := ⟨fuel - 1, by omega⟩
    cases p with
    | none =>
      simp only [sample.writeRunes, List.append_assoc]
      rw [sample.parseString_invalid, ih f rest _ (by omega)]
      simp
    | some c =>
      simp only [sample.writeRunes, List.append_assoc]
      rw [sample.parseString_writeRune, ih f rest _ (by omega)]
      simp

/-- The characters of the object with the one member id that Marshal
writes. -/
theorem sample.render_idObject (id : GoString) :
    (sample.render (Json.obj [("id", Json.str id)])).data
      = '{' :: '"' :: 'i' :: 'd' :: '"' :: ':' :: '"'
          :: (sample.writeRunes (utf8.runes id.bytes.length id.bytes) ++ ['"', '}']) := by
  have hk : sample.writeRunes (utf8.runes (GoString.ofString "id").bytes.length
      (GoString.ofString "id").bytes) = ['i', 'd'] := by decide
  simp [sample.render, sample.renderMembers, sample.quote, hk, String.data_append]

/-- Reading the object with the one member id that Marshal writes gives the
object back, with the identifier as the reader sees it: its runes, and U+FFFD
in place of each invalid byte. -/
theorem sample.parse_render_idObject (id : GoString) :
    sample.parse (sample.render (Json.obj [("id", Json.str id)]))
      = Except.ok (Json.obj [("id", Json.str (GoString.ofString (String.mk
          ((utf8.runes id.bytes.length id.bytes).map
            (fun p => p.getD (Char.ofNat 0xFFFD))))))]) := by
  have hlen := sample.length_writeRunes (utf8.runes id.bytes.length id.bytes)
  have hs := sample.parseString_writeRunes (utf8.runes id.bytes.length id.bytes)
    ((sample.writeRunes (utf8.runes id.bytes.length id.bytes)).length + 2 + 1)
    ['}'] [] (by omega)
  simp only [List.reverse_nil, List.nil_append] at hs
  have hd := sample.render_idObject id
  have hq : (1 : Nat) + 1 = 2 := rfl
  unfold sample.parse
  rw [hd]
  obtain ⟨f, hf⟩ :
      ∃ f, 2 * (sample.render (Json.obj [("id", Json.str id)])).length + 2 = f + 3 :=
    ⟨2 * (sample.render (Json.obj [("id", Json.str id)])).length - 1, by
      have : 7 ≤ (sample.render (Json.obj [("id", Json.str id)])).length := by
        rw [String.length, hd]
        simp only [List.length_cons]
        omega
      omega⟩
  rw [hf]
  simp [sample.parseValue, sample.parseMembers, sample.skipSpace, sample.isSpace,
    sample.parseString, sample.maxNestingDepth, hs]

/-- The scalar value of the character built from a number that is a scalar
value is that number. -/
theorem utf8.toNat_charOfNat (n : Nat) (h : n < 0xD800 ∨ (0xDFFF < n ∧ n < 0x110000)) :
    (Char.ofNat n).toNat = n := by
  have hv : n.isValidChar := h
  simp only [Char.ofNat, hv, dite_true, Char.ofNatAux, Char.toNat]
  rfl

/-- Two bytes with the same number are the same byte. -/
theorem utf8.ofNat_eq (b : UInt8) (n : Nat) (h : b.toNat = n) : UInt8.ofNat n = b := by
  subst h
  cases b with
  | mk v =>
    show UInt8.mk (BitVec.ofNat 8 v.toNat) = UInt8.mk v
    rw [BitVec.ofNat_toNat, BitVec.setWidth_eq]

/-- A byte is below 256. -/
theorem utf8.toNat_lt (b : UInt8) : b.toNat < 256 := by
  cases b with
  | mk v => exact v.isLt

/-- Where DecodeRune reads a rune, the bytes read are the encoding of that
rune: DecodeRune accepts no other form. -/
theorem utf8.encodeRune_DecodeRune (bs : List UInt8) (c : Char) (size : Nat)
    (h : utf8.DecodeRune bs = some (c, size)) :
    ∃ tl, bs = utf8.encodeRune c ++ tl ∧ size = (utf8.encodeRune c).length := by
  cases bs with
  | nil => simp [utf8.DecodeRune] at h
  | cons b0 rest =>
    have hb0 := utf8.toNat_lt b0
    simp only [utf8.DecodeRune] at h
    by_cases h1 : b0.toNat < 0x80
    · simp only [h1, if_true, Option.some.injEq, Prod.mk.injEq] at h
      obtain ⟨rfl, rfl⟩ := h
      have hn := utf8.toNat_charOfNat b0.toNat (by omega)
      refine ⟨rest, ?_, ?_⟩
      · unfold utf8.encodeRune
        rw [hn, if_pos h1, utf8.ofNat_eq b0 _ rfl]
        rfl
      · unfold utf8.encodeRune
        rw [hn, if_pos h1]
        rfl
    · rw [if_neg h1] at h
      by_cases h2 : b0.toNat < 0xC2
      · simp [h2] at h
      · rw [if_neg h2] at h
        by_cases h3 : b0.toNat < 0xE0
        · rw [if_pos h3] at h
          cases rest with
          | nil => simp at h
          | cons b1 r =>
            simp only at h
            split_ifs at h with hc
            simp only [Option.some.injEq, Prod.mk.injEq] at h
            obtain ⟨rfl, rfl⟩ := h
            have hn := utf8.toNat_charOfNat (b0.toNat % 0x20 * 0x40 + b1.toNat % 0x40)
              (by omega)
            refine ⟨r, ?_, ?_⟩
            · unfold utf8.encodeRune
              rw [hn, if_neg (by omega), if_pos (by omega), utf8.ofNat_eq b0 _ (by omega),
                utf8.ofNat_eq b1 _ (by omega)]
              rfl
            · unfold utf8.encodeRune
              rw [hn, if_neg (by omega), if_pos (by omega)]
              rfl
        · rw [if_neg h3] at h
          by_cases h4 : b0.toNat < 0xF0
          · rw [if_pos h4] at h
            rcases rest with _ | ⟨b1, _ | ⟨b2, r⟩⟩
            · simp at h
            · simp at h
            · simp only at h
              split_ifs at h with hc
              all_goals simp only [Option.some.injEq, Prod.mk.injEq] at h
              all_goals obtain ⟨rfl, rfl⟩ := h
              all_goals
                have hn := utf8.toNat_charOfNat
                  (b0.toNat % 0x10 * 0x1000 + b1.toNat % 0x40 * 0x40 + b2.toNat % 0x40)
                  (by omega)
              all_goals refine ⟨r, ?_, ?_⟩
              all_goals unfold utf8.encodeRune
              all_goals rw [hn, if_neg (by omega), if_neg (by omega), if_pos (by omega)]
              all_goals
                first
                | rfl
                | (rw [utf8.ofNat_eq b0 _ (by omega), utf8.ofNat_eq b1 _ (by omega),
                    utf8.ofNat_eq b2 _ (by omega)]
                   rfl)
          · rw [if_neg h4] at h
            by_cases h5 : b0.toNat < 0xF5
            · rw [if_pos h5] at h
              rcases rest with _ | ⟨b1, _ | ⟨b2, _ | ⟨b3, r⟩⟩⟩
              · simp at h
              · simp at h
              · simp at h
              · simp only at h
                split_ifs at h with hc
                all_goals simp only [Option.some.injEq, Prod.mk.injEq] at h
                all_goals obtain ⟨rfl, rfl⟩ := h
                all_goals
                  have hn := utf8.toNat_charOfNat
                    (b0.toNat % 0x08 * 0x40000 + b1.toNat % 0x40 * 0x1000
                      + b2.toNat % 0x40 * 0x40 + b3.toNat % 0x40)
                    (by omega)
                all_goals refine ⟨r, ?_, ?_⟩
                all_goals unfold utf8.encodeRune
                all_goals rw [hn, if_neg (by omega), if_neg (by omega), if_neg (by omega)]
                all_goals
                  first
                  | rfl
                  | (rw [utf8.ofNat_eq b0 _ (by omega), utf8.ofNat_eq b1 _ (by omega),
                      utf8.ofNat_eq b2 _ (by omega), utf8.ofNat_eq b3 _ (by omega)]
                     rfl)
            · simp [h5] at h

/-- The length of a Go string is fuel enough for the loop over its runes:
more fuel reads the same runes. -/
theorem utf8.runes_fuel (f1 : Nat) :
    ∀ (f2 : Nat) (bs : List UInt8), bs.length ≤ f1 → bs.length ≤ f2 →
      utf8.runes f1 bs = utf8.runes f2 bs := by
  induction f1 with
  | zero =>
    intro f2 bs h1 _
    cases bs with
    | nil => cases f2 <;> rfl
    | cons b r => simp at h1
  | succ g1 ih =>
    intro f2 bs h1 h2
    cases bs with
    | nil => cases f2 <;> rfl
    | cons b r =>
      obtain ⟨g2, rfl⟩ : ∃ g2, f2 = g2 + 1 := ⟨f2 - 1, by simp at h2; omega⟩
      simp only [List.length_cons] at h1 h2
      simp only [utf8.runes]
      cases hd : utf8.DecodeRune (b :: r) with
      | none =>
        simp only
        rw [ih g2 r (by omega) (by omega)]
      | some cs =>
        obtain ⟨c, size⟩ := cs
        obtain ⟨tl, hbs, hsize⟩ := utf8.encodeRune_DecodeRune (b :: r) c size hd
        have hpos := utf8.encodeRune_pos c
        have hlen : ((b :: r).drop size).length ≤ r.length := by
          simp only [List.length_drop, List.length_cons]
          omega
        simp only
        rw [ih g2 _ (by omega) (by omega)]

/-- The runes of a valid Go string encode back to its bytes. -/
theorem utf8.encode_runes (fuel : Nat) :
    ∀ bs : List UInt8, bs.length ≤ fuel →
      (utf8.runes fuel bs).all Option.isSome = true →
      utf8.encode ((utf8.runes fuel bs).map (fun p => p.getD (Char.ofNat 0xFFFD))) = bs := by
  induction fuel with
  | zero =>
    intro bs hl _
    cases bs with
    | nil => rfl
    | cons b r => simp at hl
  | succ f ih =>
    intro bs hl hv
    cases bs with
    | nil => rfl
    | cons b r =>
      simp only [utf8.runes] at hv ⊢
      cases hd : utf8.DecodeRune (b :: r) with
      | none => simp [hd] at hv
      | some cs =>
        obtain ⟨c, size⟩ := cs
        obtain ⟨tl, hbs, hsize⟩ := utf8.encodeRune_DecodeRune (b :: r) c size hd
        have hpos := utf8.encodeRune_pos c
        simp only [hd, List.all_cons, Option.isSome_some, Bool.true_and] at hv
        simp only [hd, List.map_cons, Option.getD_some, utf8.encode]
        rw [hbs, hsize, List.drop_left] at hv ⊢
        have hlen : tl.length ≤ f := by
          have := congrArg List.length hbs
          simp only [List.length_cons, List.length_append] at this hl
          omega
        rw [ih tl hlen hv]

/-- Reading the object with the one member id that Marshal writes for a valid
UTF-8 identifier gives the object with that identifier. -/
theorem sample.parse_render_valid (id : GoString) (hv : utf8.ValidString id = true) :
    sample.parse (sample.render (Json.obj [("id", Json.str id)]))
      = Except.ok (Json.obj [("id", Json.str id)]) := by
  rw [sample.parse_render_idObject]
  have h := utf8.encode_runes id.bytes.length id.bytes (Nat.le_refl _) hv
  have : GoString.ofString (String.mk ((utf8.runes id.bytes.length id.bytes).map
      (fun p => p.getD (Char.ofNat 0xFFFD)))) = id := by
    cases id with
    | mk bytes => simp only [GoString.ofString, h]
  rw [this]

/-- The Go string that holds a text is valid UTF-8. -/
theorem utf8.ValidString_ofString (s : String) :
    utf8.ValidString (GoString.ofString s) = true := by
  simp only [utf8.ValidString, GoString.ofString, utf8.runes_encode s.data _ (Nat.le_refl _)]
  simp

/-- C7, counterexample: for the identifier a, 0xFF, b, which is not valid
UTF-8, Create posts the text {"id":"a\ufffdb"} (the escape ufffd between a
and b), and the member id of that text is a, U+FFFD, b, not the identifier. -/
theorem create_posts_replacement_character :
    utf8.ValidString sample.invalidId = false ∧
    (∃ input, (DomainsClient.Create sample.encoding (sample.answering 201 "\x7b\x7d")
        sample.invalidId).trace.filter Event.isRequest = [Event.Post input] ∧
      input.Body = some "\x7b\"id\":\"a\\ufffdb\"\x7d") ∧
    sample.encoding.parse "\x7b\"id\":\"a\\ufffdb\"\x7d"
      = Except.ok (Json.obj [("id", Json.str sample.replacedId)]) ∧
    sample.replacedId ≠ sample.invalidId :=
  ⟨by decide, ⟨DomainsClient.CreateInput "\x7b\"id\":\"a\\ufffdb\"\x7d", rfl, rfl⟩, rfl,
    by decide⟩

/-- C7, amended: for every id, Marshal of the Domain that Create builds
succeeds and gives the text of the JSON object whose only member is id with
the Go string id, and Create hands the transport one POST request whose body
is that text. With the text layer of encoding/json, the member id of that
text reads back as the runes of id with U+FFFD in place of every byte that
is not valid UTF-8; so it reads back as id itself when id is valid UTF-8. -/
theorem create_posts_minimal_domain (enc : Encoding M R) (c : DomainsClient) (id : GoString) :
    json.Marshal enc { ID := utils.StringPtr id, metadata := enc.metadataZero }
      = Except.ok (enc.render (Json.obj [("id", Json.str id)])) ∧
    (∃ input, (DomainsClient.Create enc c id).trace.filter Event.isRequest
        = [Event.Post input] ∧
      input.Body = some (enc.render (Json.obj [("id", Json.str id)]))) ∧
    (enc.render = sample.render → enc.parse = sample.parse →
      enc.parse (enc.render (Json.obj [("id", Json.str id)]))
        = Except.ok (Json.obj [("id", Json.str (GoString.ofString (String.mk
            ((utf8.runes id.bytes.length id.bytes).map
              (fun p => p.getD (Char.ofNat 0xFFFD))))))]) ∧
      (utf8.ValidString id = true →
        enc.parse (enc.render (Json.obj [("id", Json.str id)]))
          = Except.ok (Json.obj [("id", Json.str id)]))) := by
  refine ⟨json.Marshal_minimal enc id,
    ⟨DomainsClient.CreateInput (enc.render (Json.obj [("id", Json.str id)])), ?_, rfl⟩, ?_⟩
  · rcases DomainsClient.Create_trace enc c id with h | h | h <;> simp [h, Event.isRequest]
  · intro hr hp
    rw [hr, hp]
    exact ⟨sample.parse_render_idObject id, sample.parse_render_valid id⟩

/-- C7 amended, at concrete inputs: Create of contoso.com posts the text
{"id":"contoso.com"}, which reads back as the object with that identifier;
so does the text posted for the identifier m, u with diaeresis, <, n, whose
second character takes two bytes and whose third is written as an escape. -/
theorem create_posts_minimal_domain_witness :
    (∃ input, (DomainsClient.Create sample.encoding sample.forbidden "contoso.com").trace.filter
        Event.isRequest = [Event.Post input] ∧
      input.Body = some "\x7b\"id\":\"contoso.com\"\x7d") ∧
    sample.encoding.parse "\x7b\"id\":\"contoso.com\"\x7d"
      = Except.ok (Json.obj [("id", Json.str "contoso.com")]) ∧
    (∃ input, (DomainsClient.Create sample.encoding sample.forbidden "mü<n").trace.filter
        Event.isRequest = [Event.Post input] ∧
      input.Body = some "\x7b\"id\":\"mü\\u003cn\"\x7d") ∧
    sample.encoding.parse "\x7b\"id\":\"mü\\u003cn\"\x7d"
      = Except.ok (Json.obj [("id", Json.str "mü<n")]) :=
  have a := create_posts_minimal_domain sample.encoding sample.forbidden "contoso.com"
  have b := create_posts_minimal_domain sample.encoding sample.forbidden "mü<n"
  ⟨a.2.1, (a.2.2 rfl rfl).2 (by decide), b.2.1, (b.2.2 rfl rfl).2 (by decide)⟩

end

end msgraph
